import Mathlib

/-!
Verification of the atom-atom map engine of `atom_atom_maps.py`.

The Python source is shallowly embedded below: each Python function is
translated to an executable Lean definition of the same name; Python
exceptions (ValueError, KeyError, IndexError) become `Except.error`
results that propagate exactly as the exceptions do (there is no
try/except anywhere in the source, so every error aborts the enclosing
computation).  Python strings are handled through their character
lists; `dict` values are association lists with the dict's
insert/overwrite semantics.  The two third-party calls
(`networkx.GraphMatcher.isomorphisms_iter` and
`scipy.csgraph.connected_components`) are modelled by their documented
semantics; this is noted at the respective definitions.
-/

/-! ### Character classes (Python `re` semantics, ASCII range)

The input files are ASCII; the classes below model `\d`, `\s`, `\w`,
`[A-Z]`, `[a-z]` on that range. -/

instance [DecidableEq ε] [DecidableEq α] : DecidableEq (Except ε α)
  | Except.ok a, Except.ok b =>
    if h : a = b then isTrue (by rw [h]) else isFalse (fun he => h (Except.ok.inj he))
  | Except.ok _, Except.error _ => isFalse (fun he => Except.noConfusion he)
  | Except.error _, Except.ok _ => isFalse (fun he => Except.noConfusion he)
  | Except.error e, Except.error f =>
    if h : e = f then isTrue (by rw [h]) else isFalse (fun he => h (Except.error.inj he))

def isDigitC (c : Char) : Bool := c.isDigit

def isSpaceC (c : Char) : Bool :=
  c = ' ' || c = '\t' || c = '\n' || c = '\r' || c = '\x0b' || c = '\x0c'

def isWordC (c : Char) : Bool := c.isAlphanum || c = '_'

def isUpperC (c : Char) : Bool := 'A' ≤ c && c ≤ 'Z'

def isLowerC (c : Char) : Bool := 'a' ≤ c && c ≤ 'z'

/-- Python `str.strip()` on a character list. -/
def stripChars (cs : List Char) : List Char :=
  ((cs.dropWhile isSpaceC).reverse.dropWhile isSpaceC).reverse

/-- Python `str.startswith(pat)`. -/
def startsWithM : List Char → List Char → Bool
  | [], _ => true
  | _ :: _, [] => false
  | p :: ps, c :: cs => p = c && startsWithM ps cs

/-- Python `str.split(',')`. -/
def splitOnComma : List Char → List (List Char)
  | [] => [[]]
  | ',' :: rest => [] :: splitOnComma rest
  | c :: rest =>
    match splitOnComma rest with
    | h :: t => (c :: h) :: t
    | [] => [[c]]

def lbraceC : Char := '\x7b'

def rbraceC : Char := '\x7d'

/-- Python `str.strip('{}')`. -/
def stripBraces (cs : List Char) : List Char :=
  ((cs.dropWhile (fun c => c = lbraceC || c = rbraceC)).reverse.dropWhile
      (fun c => c = lbraceC || c = rbraceC)).reverse

/-- `re.split(r'}\s+\{', s)`: split on every (leftmost, non-overlapping)
occurrence of a closing brace, one or more whitespace, an opening brace;
the separators are removed.  Fuel-based scan over the characters. -/
def splitBondsAux : Nat → List Char → List Char → List (List Char)
  | 0, acc, _ => [acc.reverse]
  | _, acc, [] => [acc.reverse]
  | fuel + 1, acc, c :: rest =>
    if c = rbraceC then
      match rest.takeWhile isSpaceC, rest.dropWhile isSpaceC with
      | _ :: _, lb :: r2 =>
        if lb = lbraceC then acc.reverse :: splitBondsAux fuel [] r2
        else splitBondsAux fuel (c :: acc) rest
      | _, _ => splitBondsAux fuel (c :: acc) rest
    else splitBondsAux fuel (c :: acc) rest

def splitBonds (cs : List Char) : List (List Char) :=
  splitBondsAux (cs.length + 1) [] cs

def digitsToNat (ds : List Char) : Nat :=
  ds.foldl (fun n c => n * 10 + (c.toNat - '0'.toNat)) 0

/-- Python `int(s)` on an (already stripped) string: optional sign then
one or more digits; anything else raises ValueError (`none` here). -/
def pyInt (cs : List Char) : Option Int :=
  let cs := stripChars cs
  match cs with
  | '-' :: rest =>
    if rest ≠ [] && rest.all isDigitC then some (-(digitsToNat rest : Int)) else none
  | '+' :: rest =>
    if rest ≠ [] && rest.all isDigitC then some (digitsToNat rest : Int) else none
  | _ =>
    if cs ≠ [] && cs.all isDigitC then some (digitsToNat cs : Int) else none

/-! ### The atom-definition parser (`parse_atom_definition`)

The source matches one stripped line against the anchored pattern

  `^(\d+)(?:\s+\*(\d*)\b)?\s+([A-Z][a-z]?)\s+(u\d+)(?:\s+(p\d+))?`
  `(?:\s+(c[-+]?\d+))?(?:\s+(\{\d+,\s*.*\}(?:\s+\{\d+,\s*.*\})*))?$`

The functions below are a direct deterministic model of this regex,
obtained by resolving its (very limited) backtracking once and for all:

* After `\*`, the group `(\d*)\b` can only succeed with one or more
  digits followed by a non-word character, and the overall match then
  additionally needs `\s+`; with a bare `*` (no digits) every
  continuation of the regex fails, so a bare `*` makes the whole match
  fail.  This is why the label branch demands digits then whitespace.
* Each optional field group starts with `\s+` and a distinct sigil
  letter, so skipping versus taking a group is decided by that sigil;
  if the sigil is present but the group body fails, every later
  alternative fails as well (no later group accepts the sigil and `$`
  cannot match the leftover text).
* In the bonds group, `\s*.*` inside `\{\d+,\s*.*\}` is greedy and the
  repetition `(?:\s+\{\d+,\s*.*\})*` may be empty, so the group matches
  exactly when the remainder starts with `\{`, a digit run and a comma
  and ends with the final `\}` of the line; the capture is the whole
  remainder.  (Callers always pass single lines, so the fact that `.`
  does not cross newlines never matters and is not modelled.)
-/

structure RegexGroups where
  g1 : List Char
  g2 : Option (List Char)
  g3 : List Char
  g4 : List Char
  g5 : Option (List Char)
  g6 : Option (List Char)
  g7 : Option (List Char)

/-- `[A-Z][a-z]?` (greedy, and the continuation `\s+` forces taking the
lowercase letter whenever it is present). -/
def parseElement : List Char → Option (List Char × List Char)
  | [] => none
  | c :: r =>
    if isUpperC c then
      match r with
      | c2 :: r2 => if isLowerC c2 then some ([c, c2], r2) else some ([c], r)
      | [] => some ([c], [])
    else none

/-- The optional bonds group `(?:\s+(\{\d+,\s*.*\}(?:\s+\{\d+,\s*.*\})*))?$`
applied to the remainder of the line. -/
def parseStageBonds (r : List Char) : Option (Option (List Char)) :=
  if r.isEmpty then some none
  else
    let ws := r.takeWhile isSpaceC
    let r1 := r.dropWhile isSpaceC
    if ws.isEmpty then none
    else
      match r1 with
      | c :: r2 =>
        if c = lbraceC then
          let ds := r2.takeWhile isDigitC
          let r3 := r2.dropWhile isDigitC
          if ds.isEmpty then none
          else
            match r3 with
            | ',' :: _ => if r1.getLast? = some rbraceC then some (some r1) else none
            | _ => none
        else none
      | [] => none

/-- The optional charge group `(?:\s+(c[-+]?\d+))?` followed by the bonds
group. -/
def parseStageCharge (r : List Char) : Option (Option (List Char) × Option (List Char)) :=
  if r.isEmpty then some (none, none)
  else
    let ws := r.takeWhile isSpaceC
    let r1 := r.dropWhile isSpaceC
    if ws.isEmpty then none
    else
      match r1 with
      | 'c' :: r2 =>
        let sgn : List Char :=
          match r2.head? with
          | some '-' => ['-']
          | some '+' => ['+']
          | _ => []
        let r3 := if sgn.isEmpty then r2 else r2.tail
        let ds := r3.takeWhile isDigitC
        if ds.isEmpty then none
        else (parseStageBonds (r3.dropWhile isDigitC)).map (fun b => (some (sgn ++ ds), b))
      | _ => (parseStageBonds r).map (fun b => (none, b))

/-- The optional lone-pair group `(?:\s+(p\d+))?` followed by the charge
and bonds groups. -/
def parseStagePairs (r : List Char) :
    Option (Option (List Char) × Option (List Char) × Option (List Char)) :=
  if r.isEmpty then some (none, none, none)
  else
    let ws := r.takeWhile isSpaceC
    let r1 := r.dropWhile isSpaceC
    if ws.isEmpty then none
    else
      match r1 with
      | 'p' :: r2 =>
        let ds := r2.takeWhile isDigitC
        if ds.isEmpty then none
        else (parseStageCharge (r2.dropWhile isDigitC)).map (fun cb => (some ds, cb))
      | _ => (parseStageCharge r).map (fun cb => (none, cb))

/-- `\s+([A-Z][a-z]?)\s+(u\d+)` and the optional field groups, applied
after the number (and optional label) have been consumed.  The leading
whitespace has already been consumed by the caller. -/
def parseRest (ds : List Char) (lbl : Option (List Char)) (r : List Char) :
    Option RegexGroups :=
  match parseElement r with
  | none => none
  | some (el, r1) =>
    let ws := r1.takeWhile isSpaceC
    let r2 := r1.dropWhile isSpaceC
    if ws.isEmpty then none
    else
      match r2 with
      | 'u' :: r3 =>
        let ds3 := r3.takeWhile isDigitC
        if ds3.isEmpty then none
        else
          match parseStagePairs (r3.dropWhile isDigitC) with
          | none => none
          | some (p, c, b) =>
            some { g1 := ds, g2 := lbl, g3 := el, g4 := ds3, g5 := p, g6 := c, g7 := b }
      | _ => none

/-- The whole anchored pattern, on the stripped line. -/
def parseRegex (cs : List Char) : Option RegexGroups :=
  let ds := cs.takeWhile isDigitC
  let r1 := cs.dropWhile isDigitC
  if ds.isEmpty then none
  else
    let ws1 := r1.takeWhile isSpaceC
    let r2 := r1.dropWhile isSpaceC
    if ws1.isEmpty then none
    else
      match r2 with
      | '*' :: r3 =>
        let ds2 := r3.takeWhile isDigitC
        let r4 := r3.dropWhile isDigitC
        if ds2.isEmpty then none
        else
          let ws2 := r4.takeWhile isSpaceC
          let r5 := r4.dropWhile isSpaceC
          if ws2.isEmpty then none else parseRest ds (some ds2) r5
      | _ => parseRest ds none r2

structure AtomDef where
  number : Int
  label : Option Int
  element : String
  unpaired : Int
  pairs : Option Int
  charge : Option Int
  bonds : List (Int × String)
deriving DecidableEq

/-- `int(groups[5][1:])`: sign and digits, guaranteed well formed. -/
def chargeToInt : List Char → Int
  | '-' :: ds => -(digitsToNat ds : Int)
  | '+' :: ds => (digitsToNat ds : Int)
  | ds => (digitsToNat ds : Int)

/-- The two bond list comprehensions of the source:
`[tuple(x.strip() for x in bond.strip('{}').split(',')) for bond in re.split(r'}\s+\{', groups[6])]`
then `[(int(x[0]), x[1]) for x in bonds]`.  `int(x[0])` raises
ValueError on a non-numeric field and `x[1]` raises IndexError when a
clause has no comma-separated second field. -/
def build_bonds : Option (List Char) → Except String (List (Int × String))
  | none => Except.ok []
  | some cs =>
    (splitBonds cs).mapM (fun piece =>
      let fields := (splitOnComma (stripBraces piece)).map stripChars
      match pyInt (fields.getD 0 []) with
      | none => Except.error "ValueError: invalid literal for int() with base 10"
      | some t =>
        if fields.length < 2 then Except.error "IndexError: tuple index out of range"
        else Except.ok (t, String.mk (fields.getD 1 [])))

/-- `parse_atom_definition` of the source: match the stripped line
against the pattern (ValueError when it does not match), then build the
record; the bond comprehension can itself raise. -/
def parse_atom_definition (s : String) : Except String AtomDef :=
  match parseRegex (stripChars s.data) with
  | none => Except.error ("Invalid atom definition: " ++ s)
  | some gs =>
    match build_bonds gs.g7 with
    | Except.error e => Except.error e
    | Except.ok bonds =>
      Except.ok
        { number := (digitsToNat gs.g1 : Int)
          label := gs.g2.map (fun d => (digitsToNat d : Int))
          element := String.mk gs.g3
          unpaired := (digitsToNat gs.g4 : Int)
          pairs := gs.g5.map (fun d => (digitsToNat d : Int))
          charge := gs.g6.map chargeToInt
          bonds := bonds }

/-! ### `MoleculeGraph` and the graph builder (`adjlist_to_graph`) -/

structure MoleculeGraph where
  adjacencyMatrix : List (List Int)
  edgeLabels : List (List (Option String))
  nodeLabels : List String
  nodeIds : List (Option Int)
deriving DecidableEq

def emptyMoleculeGraph : MoleculeGraph :=
  { adjacencyMatrix := [], edgeLabels := [], nodeLabels := [], nodeIds := [] }

/-- Read cell `(i, j)` of an adjacency matrix. -/
def adjCell (m : List (List Int)) (i j : Nat) : Int := (m.getD i []).getD j 0

/-- Read cell `(i, j)` of an edge-label matrix. -/
def lblCell (m : List (List (Option String))) (i j : Nat) : Option String :=
  (m.getD i []).getD j none

/-- `m[i][j] = v` on a list-of-lists matrix (in-range by construction in
the builder; `List.set` is the identity out of range). -/
def set2d (m : List (List α)) (i j : Nat) (v : α) : List (List α) :=
  m.set i ((m.getD i []).set j v)

/-- The dict comprehension `{int(x['number']): i for i, x in enumerate(atoms)}`:
later entries overwrite earlier ones, so lookup returns the last binding. -/
def id_map_lookup (atoms : List AtomDef) (k : Int) : Option Nat :=
  ((atoms.enum.map (fun p => (p.2.number, p.1))).reverse.find?
    (fun p => p.1 = k)).map (fun p => p.2)

/-- The inner loop `for bond in atom['bonds']` of `adjlist_to_graph`,
writing row `i` of both matrices; `id_map[bond[0]]` raises KeyError when
the bond references an absent atom number. -/
def apply_row (resolve : Int → Option Nat) (i : Nat) :
    List (Int × String) → List (List Int) × List (List (Option String)) →
    Except String (List (List Int) × List (List (Option String)))
  | [], g => Except.ok g
  | b :: bs, g =>
    match resolve b.1 with
    | none => Except.error ("KeyError: " ++ toString b.1)
    | some j => apply_row resolve i bs (set2d g.1 i j 1, set2d g.2 i j (some b.2))

/-- The outer loop `for i, atom in enumerate(atoms)` of `adjlist_to_graph`,
starting at row index `i0`. -/
def apply_bonds_from (resolve : Int → Option Nat) :
    Nat → List AtomDef → List (List Int) × List (List (Option String)) →
    Except String (List (List Int) × List (List (Option String)))
  | _, [], g => Except.ok g
  | i0, a :: rest, g =>
    match apply_row resolve i0 a.bonds g with
    | Except.error e => Except.error e
    | Except.ok g1 => apply_bonds_from resolve (i0 + 1) rest g1

/-- The body of `adjlist_to_graph` after parsing: build `id_map`,
initialize the `n × n` matrices with `0`/`None` and run the bond loops. -/
def graph_of_atoms (atoms : List AtomDef) : Except String MoleculeGraph :=
  let n := atoms.length
  match apply_bonds_from (id_map_lookup atoms) 0 atoms
      (List.replicate n (List.replicate n 0),
       List.replicate n (List.replicate n (none : Option String))) with
  | Except.error e => Except.error e
  | Except.ok g =>
    Except.ok
      { adjacencyMatrix := g.1
        edgeLabels := g.2
        nodeLabels := atoms.map (fun a => a.element)
        nodeIds := atoms.map (fun a => a.label) }

/-- `adjlist_to_graph`: parse every line, then build the graph. -/
def adjlist_to_graph (adjlist : List String) : Except String MoleculeGraph :=
  match adjlist.mapM parse_atom_definition with
  | Except.error e => Except.error e
  | Except.ok atoms => graph_of_atoms atoms

/-! ### `get_subgraph` and the component decomposer -/

/-- `get_subgraph`: induced subgraph on `indices`, in that order. -/
def get_subgraph (g : MoleculeGraph) (indices : List Nat) : MoleculeGraph :=
  { adjacencyMatrix := indices.map (fun i => indices.map (fun j => adjCell g.adjacencyMatrix i j))
    edgeLabels := indices.map (fun i => indices.map (fun j => lblCell g.edgeLabels i j))
    nodeLabels := indices.map (fun i => g.nodeLabels.getD i "")
    nodeIds := indices.map (fun i => g.nodeIds.getD i none) }

/-- Neighbours of `i` in the matrix read as an undirected graph
(`connected_components(..., directed=False)` joins `i-j` when either
`M[i][j]` or `M[j][i]` is non-zero). -/
def undirected_neighbors (adj : List (List Int)) (i : Nat) : List Nat :=
  (List.range adj.length).filter (fun j => adjCell adj i j ≠ 0 || adjCell adj j i ≠ 0)

def insertNew (acc : List Nat) (j : Nat) : List Nat :=
  if acc.contains j then acc else acc ++ [j]

def expandReach (adj : List (List Int)) (acc : List Nat) : List Nat :=
  ((acc.map (undirected_neighbors adj)).flatten).foldl insertNew acc

def reachAux (adj : List (List Int)) : Nat → List Nat → List Nat
  | 0, acc => acc
  | fuel + 1, acc => reachAux adj fuel (expandReach adj acc)

/-- All nodes connected to `s` (fixed point is reached after at most `n`
expansions). -/
def component_of (adj : List (List Int)) (s : Nat) : List Nat :=
  reachAux adj adj.length [s]

/-- Modelled from the library: `scipy.sparse.csgraph.connected_components`
followed by the source's grouping
`{k: [i for i, l in enumerate(component_labels) if l == k] for k in set(component_labels)}`:
the partition of the node set into connected components, each component
listing its nodes in increasing order. -/
def component_index_groups (adj : List (List Int)) : List (List Nat) :=
  (List.range adj.length).foldl
    (fun comps i =>
      if comps.any (fun c => c.contains i) then comps
      else comps ++ [(List.range adj.length).filter (fun j => (component_of adj i).contains j)])
    []

/-- `get_component_subgraphs`. -/
def get_component_subgraphs (g : MoleculeGraph) : List MoleculeGraph :=
  (component_index_groups g.adjacencyMatrix).map (get_subgraph g)

/-! ### The networkx view (`get_nx_graph`) and the isomorphism matcher -/

/-- The `nx.Graph` built by `get_nx_graph`: nodes `0 .. n-1` carrying a
`label` and an `id` attribute, and one undirected edge entry per pair
`i < j` with `adjacencyMatrix[i][j] = 1`, carrying a `label` attribute. -/
structure NxGraph where
  nodeAttrs : List (String × Option Int)
  edges : List (Nat × Nat × Option String)
deriving DecidableEq

/-- `get_nx_graph`: `zip` the node attributes, then
`for i in range(n): for j in range(i+1, n): if M[i][j] == 1: add_edge`. -/
def get_nx_graph (g : MoleculeGraph) : NxGraph :=
  let m := g.adjacencyMatrix.length
  { nodeAttrs := g.nodeLabels.zip g.nodeIds
    edges :=
      ((List.range m).map (fun i =>
        ((List.range m).drop (i + 1)).filterMap (fun j =>
          if adjCell g.adjacencyMatrix i j = 1 then some (i, j, lblCell g.edgeLabels i j)
          else none))).flatten }

/-- Number of nodes of the nx graph. -/
def nxN (g : NxGraph) : Nat := g.nodeAttrs.length

/-- `g.has_edge(u, v)` (undirected). -/
def nx_has_edge (g : NxGraph) (u v : Nat) : Bool :=
  g.edges.any (fun e => (e.1 = u && e.2.1 = v) || (e.1 = v && e.2.1 = u))

/-- `g[u][v].get('label')` (undirected lookup; callers only use it when
the edge exists). -/
def nx_edge_label (g : NxGraph) (u v : Nat) : Option String :=
  match g.edges.find? (fun e => (e.1 = u && e.2.1 = v) || (e.1 = v && e.2.1 = u)) with
  | some e => e.2.2
  | none => none

/-- `g.nodes[i].get('label')`. -/
def nx_node_label (g : NxGraph) (i : Nat) : String := (g.nodeAttrs.getD i ("", none)).1

/-- All bijections from the node set of one graph (`n` nodes) to that of
another (`m` nodes), as lists `p` with `p[i]` the image of node `i`;
there are none when `n ≠ m`. -/
def all_bijections (n m : Nat) : List (List Nat) :=
  if n = m then (List.range m).permutations' else []

/-- `p` preserves adjacency in both directions (an isomorphism of the
underlying unlabeled graphs). -/
def is_structural_iso (g1 g2 : NxGraph) (p : List Nat) : Bool :=
  (List.range (nxN g1)).all (fun i =>
    (List.range (nxN g1)).all (fun j =>
      nx_has_edge g1 i j = nx_has_edge g2 (p.getD i 0) (p.getD j 0)))

/-- Modelled from the library: `GraphMatcher(g1, g2).isomorphisms_iter()`
enumerates every isomorphism between the two (unlabeled) graphs, i.e.
every adjacency-preserving bijection of their node sets. -/
def isomorphisms_iter (g1 g2 : NxGraph) : List (List Nat) :=
  (all_bijections (nxN g1) (nxN g2)).filter (is_structural_iso g1 g2)

/-- `get_label_filtered_isomorphisms`: keep the isomorphisms whose node
`label`s agree everywhere and whose edges (taken from `g1`) map to
edges of `g2` with equal `label`. -/
def get_label_filtered_isomorphisms (g1 g2 : NxGraph) : List (List Nat) :=
  (isomorphisms_iter g1 g2).filter (fun iso =>
    ((List.range (nxN g1)).all (fun i =>
        nx_node_label g1 i = nx_node_label g2 (iso.getD i 0))) &&
    (g1.edges.all (fun e =>
        nx_has_edge g2 (iso.getD e.1 0) (iso.getD e.2.1 0) &&
        nx_edge_label g1 e.1 e.2.1 = nx_edge_label g2 (iso.getD e.1 0) (iso.getD e.2.1 0))))

/-- Well-formedness of an nx graph as produced by `get_nx_graph`: every
edge joins two distinct nodes of the node set, and there is at most one
entry per unordered node pair. -/
def NxWF (g : NxGraph) : Prop :=
  (∀ e ∈ g.edges, e.1 < nxN g ∧ e.2.1 < nxN g ∧ e.1 ≠ e.2.1) ∧
  g.edges.Pairwise (fun e e' =>
    ¬((e.1 = e'.1 ∧ e.2.1 = e'.2.1) ∨ (e.1 = e'.2.1 ∧ e.2.1 = e'.1)))

instance (g : NxGraph) : Decidable (NxWF g) := by
  unfold NxWF; infer_instance

/-- The specification's description of the matcher's output (§4.4),
stated in its own words: a bijection between the two node sets under
which node labels are equal, every candidate edge maps to a reference
edge with an equal bond-order label, and vice versa. -/
def spec_is_label_iso (g1 g2 : NxGraph) (p : List Nat) : Prop :=
  p.length = nxN g1 ∧ p.Nodup ∧ (∀ x ∈ p, x < nxN g2) ∧ (∀ y < nxN g2, y ∈ p) ∧
  (∀ i < nxN g1, nx_node_label g1 i = nx_node_label g2 (p.getD i 0)) ∧
  (∀ e ∈ g1.edges,
    nx_has_edge g2 (p.getD e.1 0) (p.getD e.2.1 0) = true ∧
    nx_edge_label g2 (p.getD e.1 0) (p.getD e.2.1 0) = nx_edge_label g1 e.1 e.2.1) ∧
  (∀ e ∈ g2.edges, ∃ u v, u < nxN g1 ∧ v < nxN g1 ∧
    p.getD u 0 = e.1 ∧ p.getD v 0 = e.2.1 ∧
    nx_has_edge g1 u v = true ∧ nx_edge_label g1 u v = nx_edge_label g2 e.1 e.2.1)

/-! ### Python dict helpers -/

/-- `d[k] = v` on a Python dict kept as an association list: overwrite
the existing binding in place, else append. -/
def dict_set (d : List (String × α)) (k : String) (v : α) : List (String × α) :=
  if d.any (fun p => p.1 = k) then d.map (fun p => if p.1 = k then (k, v) else p)
  else d ++ [(k, v)]

/-- `d[k]` / `k in d` (keys are unique by construction of `dict_set`). -/
def dict_get (d : List (String × α)) (k : String) : Option α :=
  (d.find? (fun p => p.1 = k)).map (fun p => p.2)

/-- Same for `Nat`-keyed dicts (the atom-count index). -/
def ndict_set (d : List (Nat × α)) (k : Nat) (v : α) : List (Nat × α) :=
  if d.any (fun p => p.1 = k) then d.map (fun p => if p.1 = k then (k, v) else p)
  else d ++ [(k, v)]

def ndict_get (d : List (Nat × α)) (k : Nat) : Option α :=
  (d.find? (fun p => p.1 = k)).map (fun p => p.2)

/-! ### Species dictionary loading (the first file loop of `main`) -/

/-- One registered species: its `MoleculeGraph` and its nx view, as in
`species[last_name] = (g, get_nx_graph(g))`. -/
abbrev SpeciesDict := List (String × (MoleculeGraph × NxGraph))

structure LoadState where
  lastName : Option String
  lastRows : List String
  species : SpeciesDict
deriving DecidableEq

/-- The species-dictionary line loop of `main`: a blank line flushes the
current block (building its graph — any parse error propagates), the
first non-blank line of a block is the species name, `multiplicity`
lines are skipped, other lines are collected (stripped). -/
def species_load : List String → LoadState → Except String LoadState
  | [], st => Except.ok st
  | line :: rest, st =>
    if stripChars line.data = [] then
      match st.lastName with
      | some nm =>
        match adjlist_to_graph st.lastRows with
        | Except.error e => Except.error e
        | Except.ok g =>
          species_load rest
            { lastName := none, lastRows := [],
              species := dict_set st.species nm (g, get_nx_graph g) }
      | none => species_load rest st
    else
      match st.lastName with
      | none => species_load rest { st with lastName := some (String.mk (stripChars line.data)) }
      | some _ =>
        if startsWithM "multiplicity".data line.data then species_load rest st
        else species_load rest { st with lastRows := st.lastRows ++ [String.mk (stripChars line.data)] }

/-- `load_species`: run the loop from the empty state.  Note there is no
flush after the loop: a final block not followed by a blank line is
dropped. -/
def load_species (lines : List String) : Except String SpeciesDict :=
  match species_load lines { lastName := none, lastRows := [], species := [] } with
  | Except.error e => Except.error e
  | Except.ok st => Except.ok st.species

/-- The atom-count index: `atom_count_species_names_map`, built by
appending each species name to the bucket of its atom count. -/
def build_atom_count_map (species : SpeciesDict) : List (Nat × List String) :=
  species.foldl
    (fun m p =>
      let c := p.2.1.nodeLabels.length
      match ndict_get m c with
      | none => m ++ [(c, [p.1])]
      | some l => ndict_set m c (l ++ [p.1]))
    []

/-! ### Per-component species matching (the two matching loops of `main`) -/

/-- The inner loop `for name in atom_count_species_names_map[atom_count]`
for one component: state is `(species_names[i], species_mappings[i],
diagnostics)`.  A candidate with isomorphisms either sets the name and
extends the mappings, or — when a different name was already kept —
prints a warning (collected here as a `(kept, conflicting)` pair) and is
skipped. -/
def match_component (species : SpeciesDict) (comp : NxGraph) :
    List String → Option String × List (List Nat) × List (String × String) →
    Except String (Option String × List (List Nat) × List (String × String))
  | [], st => Except.ok st
  | nm :: rest, st =>
    match dict_get species nm with
    | none => Except.error ("KeyError: " ++ nm)
    | some entry =>
      let isos := get_label_filtered_isomorphisms comp entry.2
      if 0 < isos.length then
        match st.1 with
        | some kept =>
          if kept ≠ nm then
            match_component species comp rest (some kept, st.2.1, st.2.2 ++ [(kept, nm)])
          else match_component species comp rest (some nm, st.2.1 ++ isos, st.2.2)
        | none => match_component species comp rest (some nm, st.2.1 ++ isos, st.2.2)
      else match_component species comp rest st

/-- The per-side matching loop of `main`: for each component (its
subgraph paired with its nx view), look up the candidate bucket for its
atom count — a missing bucket raises KeyError — and run the candidate
loop; accumulate `species_names` and `species_mappings`. -/
def match_side (species : SpeciesDict) (buckets : List (Nat × List String)) :
    List (MoleculeGraph × NxGraph) → List (Option String) × List (List (List Nat)) →
    Except String (List (Option String) × List (List (List Nat)))
  | [], acc => Except.ok acc
  | (sub, nxg) :: rest, acc =>
    match ndict_get buckets sub.nodeLabels.length with
    | none => Except.error ("KeyError: " ++ toString sub.nodeLabels.length)
    | some names =>
      match match_component species nxg names (none, [], []) with
      | Except.error e => Except.error e
      | Except.ok st => match_side species buckets rest (acc.1 ++ [st.1], acc.2 ++ [st.2.1])

/-! ### The combination recursion (`recurse_species_mappings`) -/

/-- `recurse_species_mappings` of the source, with the `index` argument
replaced by the not-yet-visited suffix of `species_mappings`: at the
end of the list append the accumulated `path` to `results`, otherwise
loop (`for i in range(len(species_mappings[index]))`, here a fold over
`List.range`) over the isomorphism indices of the current component. -/
def recurse_species_mappings : List (List (List Nat)) → List Nat → List (List Nat) →
    List (List Nat)
  | [], path, results => results ++ [path]
  | m :: rest, path, results =>
    (List.range m.length).foldl
      (fun res i => recurse_species_mappings rest (path ++ [i]) res) results

/-! ### Reconciliation (the mapping-building loops of `main`) -/

/-- One atom-atom map entry
`[_id, reactant_species_name, reactant_index, product_species_name, product_index]`. -/
structure MapEntry where
  label : Int
  rname : Option String
  ridx : Nat
  pname : Option String
  pidx : Option Nat
deriving DecidableEq

/-- The reactant half of one candidate mapping: for every reactant
component `i` with chosen isomorphism, append one entry per labeled
atom (`_id is not None`). -/
def reactant_entries (rsubs : List MoleculeGraph) (rnames : List (Option String))
    (rmaps : List (List (List Nat))) (rc : List Nat) : List MapEntry :=
  (rc.enum.map (fun p =>
    let iso := (rmaps.getD p.1 []).getD p.2 []
    ((rsubs.getD p.1 emptyMoleculeGraph).nodeIds.enum.filterMap (fun q =>
      match q.2 with
      | some l => some { label := l, rname := rnames.getD p.1 none, ridx := iso.getD q.1 0,
                         pname := none, pidx := none }
      | none => none)))).flatten

/-- `[x for x in mapping if x[0] == _id][0]` followed by the two field
assignments: update the first entry with the given label, `none` when
there is no such entry (the `[0]` then raises IndexError). -/
def update_first_entry : List MapEntry → Int → Option String → Nat → Option (List MapEntry)
  | [], _, _, _ => none
  | e :: rest, l, nm, idx =>
    if e.label = l then some ({ e with pname := nm, pidx := some idx } :: rest)
    else
      match update_first_entry rest l nm idx with
      | some rest2 => some (e :: rest2)
      | none => none

/-- The inner product loop `for j, _id in enumerate(products_subgraphs[i]['nodeIds'])`. -/
def product_apply_component (nm : Option String) (iso : List Nat) :
    List (Nat × Option Int) → List MapEntry → Except String (List MapEntry)
  | [], m => Except.ok m
  | q :: rest, m =>
    match q.2 with
    | none => product_apply_component nm iso rest m
    | some l =>
      match update_first_entry m l nm (iso.getD q.1 0) with
      | none => Except.error "IndexError: list index out of range"
      | some m2 => product_apply_component nm iso rest m2

/-- The outer product loop `for i, isomorphism_index in enumerate(product_combination)`. -/
def product_apply (psubs : List MoleculeGraph) (pnames : List (Option String))
    (pmaps : List (List (List Nat))) :
    List (Nat × Nat) → List MapEntry → Except String (List MapEntry)
  | [], m => Except.ok m
  | p :: rest, m =>
    match product_apply_component (pnames.getD p.1 none) ((pmaps.getD p.1 []).getD p.2 [])
        (psubs.getD p.1 emptyMoleculeGraph).nodeIds.enum m with
    | Except.error e => Except.error e
    | Except.ok m2 => product_apply psubs pnames pmaps rest m2

/-- One candidate mapping for one (reactant-combination,
product-combination) pair. -/
def build_candidate (rsubs psubs : List MoleculeGraph)
    (rnames pnames : List (Option String))
    (rmaps pmaps : List (List (List Nat))) (rc pc : List Nat) :
    Except String (List MapEntry) :=
  product_apply psubs pnames pmaps pc.enum (reactant_entries rsubs rnames rmaps rc)

/-- `mappings.add(frozenset(...))`: insert a set of entries unless it is
already present (Python set membership is extensional on frozensets). -/
def insert_unique (acc : List (Finset MapEntry)) (s : Finset MapEntry) :
    List (Finset MapEntry) :=
  if s ∈ acc then acc else acc ++ [s]

/-- The inner half of the double loop over combination pairs. -/
def mappings_inner (bc : List Nat → List Nat → Except String (List MapEntry)) (rc : List Nat) :
    List (List Nat) → List (Finset MapEntry) → Except String (List (Finset MapEntry))
  | [], acc => Except.ok acc
  | pc :: pcs, acc =>
    match bc rc pc with
    | Except.error e => Except.error e
    | Except.ok m => mappings_inner bc rc pcs (insert_unique acc m.toFinset)

/-- The double loop `for reactant_combination ...: for product_combination ...`
accumulating the deduplicated mapping set. -/
def mappings_loop (bc : List Nat → List Nat → Except String (List MapEntry)) :
    List (List Nat) → List (List Nat) → List (Finset MapEntry) →
    Except String (List (Finset MapEntry))
  | [], _, acc => Except.ok acc
  | rc :: rcs, pcombs, acc =>
    match mappings_inner bc rc pcombs acc with
    | Except.error e => Except.error e
    | Except.ok acc2 => mappings_loop bc rcs pcombs acc2

/-! ### The per-reaction driver and the batch loop of `main` -/

/-- Python `str.split('\n')`. -/
def splitOnNl : List Char → List (List Char)
  | [] => [[]]
  | '\n' :: rest => [] :: splitOnNl rest
  | c :: rest =>
    match splitOnNl rest with
    | h :: t => (c :: h) :: t
    | [] => [[c]]

/-- `[x.strip() for x in block.split('\n') if x.strip() != '']`. -/
def split_block (block : String) : List String :=
  ((splitOnNl block.data).map stripChars).filterMap (fun cs =>
    if cs = [] then none else some (String.mk cs))

/-- The body of `main`'s reaction loop for one reaction that has both a
`reactant` and a `product` block: build the two graphs, decompose into
components, match each component against the species index, build the
combination cross products and reconcile every pair, deduplicating the
resulting maps. -/
def process_reaction (species : SpeciesDict) (buckets : List (Nat × List String))
    (reactantBlock productBlock : String) : Except String (List (Finset MapEntry)) :=
  match adjlist_to_graph (split_block reactantBlock) with
  | Except.error e => Except.error e
  | Except.ok rg =>
    match adjlist_to_graph (split_block productBlock) with
    | Except.error e => Except.error e
    | Except.ok pg =>
      let rsubs := get_component_subgraphs rg
      let psubs := get_component_subgraphs pg
      match match_side species buckets (rsubs.zip (rsubs.map get_nx_graph)) ([], []) with
      | Except.error e => Except.error e
      | Except.ok (rnames, rmaps) =>
        match match_side species buckets (psubs.zip (psubs.map get_nx_graph)) ([], []) with
        | Except.error e => Except.error e
        | Except.ok (pnames, pmaps) =>
          let rcombs := recurse_species_mappings rmaps [] []
          let pcombs := recurse_species_mappings pmaps [] []
          mappings_loop (build_candidate rsubs psubs rnames pnames rmaps pmaps)
            rcombs pcombs []

/-- One parsed reaction record of the YAML input. -/
structure ReactionRecord where
  index : Int
  reaction : String
  reaction_family : String
  reactant : Option String
  product : Option String
deriving DecidableEq

/-- One emitted reaction output record. -/
structure ReactionOutput where
  index : Int
  reaction : String
  reaction_family : String
  mappings : List (Finset MapEntry)
deriving DecidableEq

/-- The batch loop `for reaction in data['reactions']`: records lacking
either block are skipped; any exception raised while processing a
record propagates and aborts the whole run. -/
def process_reactions (species : SpeciesDict) (buckets : List (Nat × List String)) :
    List ReactionRecord → List ReactionOutput → Except String (List ReactionOutput)
  | [], acc => Except.ok acc
  | r :: rest, acc =>
    match r.reactant, r.product with
    | some ra, some pa =>
      match process_reaction species buckets ra pa with
      | Except.error e => Except.error e
      | Except.ok maps =>
        process_reactions species buckets rest
          (acc ++ [{ index := r.index, reaction := r.reaction,
                     reaction_family := r.reaction_family, mappings := maps }])
    | _, _ => process_reactions species buckets rest acc

/-- Closed form of the recursion: the combinations that extend `path`. -/
def combosFrom : List (List (List Nat)) → List Nat → List (List Nat)
  | [], path => [path]
  | m :: rest, path =>
    ((List.range m.length).map (fun i => combosFrom rest (path ++ [i]))).flatten

/-- The state after loading the two-line species `A` terminated by a
blank line. -/
def c10_pre_state : LoadState :=
  { lastName := none, lastRows := [],
    species := [("A",
      ({ adjacencyMatrix := [[0]], edgeLabels := [[none]],
         nodeLabels := ["C"], nodeIds := [none] },
       { nodeAttrs := [("C", none)], edges := [] }))] }

/-- A one-carbon species dictionary used by several concrete checks. -/
def c6_species : SpeciesDict :=
  [("A",
    ({ adjacencyMatrix := [[0]], edgeLabels := [[none]],
       nodeLabels := ["C"], nodeIds := [none] },
     { nodeAttrs := [("C", none)], edges := [] }))]

def c6_buckets : List (Nat × List String) := build_atom_count_map c6_species

def c6_bad : ReactionRecord :=
  { index := 1, reaction := "bad", reaction_family := "f",
    reactant := some "garbage", product := some "1 C u0" }

def c6_good : ReactionRecord :=
  { index := 2, reaction := "good", reaction_family := "f",
    reactant := some "1 C u0", product := some "1 C u0" }

/-- The candidate names that yield at least one isomorphism for the
component, in candidate enumeration order. -/
def matching_names (species : SpeciesDict) (comp : NxGraph) (names : List String) :
    List String :=
  names.filter (fun nm =>
    match dict_get species nm with
    | some e => decide (0 < (get_label_filtered_isomorphisms comp e.2).length)
    | none => false)

/-- The isomorphisms of the component to one named species. -/
def isos_of (species : SpeciesDict) (comp : NxGraph) (nm : String) : List (List Nat) :=
  match dict_get species nm with
  | some e => get_label_filtered_isomorphisms comp e.2
  | none => []

/-- What the candidate loop should produce: no match at all, or the
first matching species with its isomorphisms and one diagnostic pair
per later, different matching species. -/
def expected_match_result (species : SpeciesDict) (comp : NxGraph) (names : List String) :
    Option String × List (List Nat) × List (String × String) :=
  match matching_names species comp names with
  | [] => (none, [], [])
  | f :: rest => (some f, isos_of species comp f, rest.map (fun nm => (f, nm)))

/-- A one-carbon molecule graph and its nx view. -/
def molC : MoleculeGraph :=
  { adjacencyMatrix := [[0]], edgeLabels := [[none]], nodeLabels := ["C"], nodeIds := [none] }

def nxgC : NxGraph := { nodeAttrs := [("C", none)], edges := [] }

/-- Two structurally identical species under different names. -/
def c9_species : SpeciesDict := [("A", (molC, nxgC)), ("B", (molC, nxgC))]

/-- All conserved labels carried by the atoms of a list of component
subgraphs. -/
def side_labels (subs : List MoleculeGraph) : List Int :=
  (subs.map (fun s => s.nodeIds.filterMap id)).flatten

/-- The labels touched by the product loop for a combination `pcs`. -/
def pc_labels (psubs : List MoleculeGraph) (pcs : List (Nat × Nat)) : List Int :=
  (pcs.map (fun p => (psubs.getD p.1 emptyMoleculeGraph).nodeIds.filterMap id)).flatten

/-- A single labeled carbon (conserved label 5). -/
def molC5 : MoleculeGraph :=
  { adjacencyMatrix := [[0]], edgeLabels := [[none]], nodeLabels := ["C"], nodeIds := [some 5] }

/-- A CH₂-like component: one labeled carbon bonded to two
interchangeable unlabeled hydrogens (so it has two automorphisms that
agree on the labeled atom). -/
def c8_sub : MoleculeGraph :=
  { adjacencyMatrix := [[0, 1, 1], [1, 0, 0], [1, 0, 0]],
    edgeLabels := [[none, some "S", some "S"], [some "S", none, none], [some "S", none, none]],
    nodeLabels := ["C", "H", "H"], nodeIds := [some 1, none, none] }

/-- The single deduplicated entry set of the witness scenario. -/
def c8_entry : MapEntry :=
  { label := 1, rname := some "A", ridx := 0, pname := some "A", pidx := some 0 }

def c8_set : Finset MapEntry := {c8_entry}

def emptyNxGraph : NxGraph := { nodeAttrs := [], edges := [] }

/-- A two-carbon species and an isolated oxygen atom used by the C1
concrete checks. -/
def molC2 : MoleculeGraph :=
  { adjacencyMatrix := [[0, 1], [1, 0]],
    edgeLabels := [[none, some "S"], [some "S", none]],
    nodeLabels := ["C", "C"], nodeIds := [none, none] }

def nxgC2 : NxGraph :=
  { nodeAttrs := [("C", none), ("C", none)], edges := [(0, 1, some "S")] }

def c1_species : SpeciesDict := [("C2", (molC2, nxgC2))]

def molO : MoleculeGraph :=
  { adjacencyMatrix := [[0]], edgeLabels := [[none]], nodeLabels := ["O"], nodeIds := [none] }

def nxgO : NxGraph := { nodeAttrs := [("O", none)], edges := [] }

def defaultAtom : AtomDef :=
  { number := 0, label := none, element := "", unpaired := 0, pairs := none,
    charge := none, bonds := [] }

/-- The label written last to column `j` by a bond list (the Python
loop's final overwrite), `none` when no bond writes there. -/
def lastWrite (resolve : Int → Option Nat) : List (Int × String) → Nat → Option String
  | [], _ => none
  | b :: bs, j =>
    match lastWrite resolve bs j with
    | some s => some s
    | none => if resolve b.1 = some j then some b.2 else none

/-! ## Theorems

Helper lemmas are shared; the one theorem (plus witness or
counterexample) of each claim stands alone. -/

/-! ### C7: the combination cross product -/

lemma recurse_species_mappings_eq (sm : List (List (List Nat))) :
    ∀ path results,
      recurse_species_mappings sm path results = results ++ combosFrom sm path := by
  induction sm with
  | nil => intro path results; simp [recurse_species_mappings, combosFrom]
  | cons m rest ih =>
    intro path results
    have hloop : ∀ (is : List Nat) (res : List (List Nat)),
        is.foldl (fun r i => recurse_species_mappings rest (path ++ [i]) r) res =
        res ++ (is.map (fun i => combosFrom rest (path ++ [i]))).flatten := by
      intro is
      induction is with
      | nil => intro res; simp
      | cons i is ihl =>
        intro res
        rw [List.foldl_cons, ihl, ih]
        simp
    rw [recurse_species_mappings, hloop, combosFrom]

lemma sum_map_const_range (n k : Nat) : ((List.range n).map (fun _ => k)).sum = n * k := by
  induction n with
  | zero => simp
  | succ n ih => rw [List.range_succ]; simp [ih, Nat.succ_mul]

lemma combosFrom_length :
    ∀ (sm : List (List (List Nat))) (path : List Nat),
      (combosFrom sm path).length = (sm.map List.length).prod := by
  intro sm
  induction sm with
  | nil => intro path; simp [combosFrom]
  | cons m rest ih =>
    intro path
    rw [combosFrom]
    rw [List.length_flatten]
    simp only [List.map_map]
    have : ((List.range m.length).map (List.length ∘ fun i => combosFrom rest (path ++ [i]))).sum
        = ((List.range m.length).map (fun _ => ((rest.map List.length).prod))).sum := by
      congr 1
      apply List.map_congr_left
      intro i _
      simp [ih]
    rw [this, sum_map_const_range]
    simp [Nat.mul_comm]

lemma combosFrom_mem_structure :
    ∀ (sm : List (List (List Nat))) (path p : List Nat), p ∈ combosFrom sm path →
      ∃ q, p = path ++ q ∧ q.length = sm.length ∧
        ∀ k, k < sm.length → q.getD k 0 < (sm.getD k []).length := by
  intro sm
  induction sm with
  | nil =>
    intro path p hp
    refine ⟨[], ?_, by simp, by simp⟩
    simpa [combosFrom] using hp
  | cons m rest ih =>
    intro path p hp
    rw [combosFrom] at hp
    rw [List.mem_flatten] at hp
    obtain ⟨l, hl, hpl⟩ := hp
    rw [List.mem_map] at hl
    obtain ⟨i, hi, rfl⟩ := hl
    rw [List.mem_range] at hi
    obtain ⟨q, rfl, hq, hqlt⟩ := ih (path ++ [i]) p hpl
    refine ⟨i :: q, by simp, by simp [hq], ?_⟩
    intro k hk
    match k with
    | 0 => simpa using hi
    | k + 1 =>
      have := hqlt k (by simpa using hk)
      simpa using this

/-- C7: for one reaction side whose components have `m₁, …, m_k`
isomorphism alternatives, `recurse_species_mappings` produces exactly
`m₁ × … × m_k` side-combinations (zero when any factor is zero), each
of which picks exactly one isomorphism index, in range, per component. -/
theorem C7_cross_product_size (sm : List (List (List Nat))) :
    (recurse_species_mappings sm [] []).length = (sm.map List.length).prod ∧
    ∀ p ∈ recurse_species_mappings sm [] [], p.length = sm.length ∧
      ∀ k, k < sm.length → p.getD k 0 < (sm.getD k []).length := by
  constructor
  · rw [recurse_species_mappings_eq]
    simp [combosFrom_length]
  · intro p hp
    rw [recurse_species_mappings_eq] at hp
    simp only [List.nil_append] at hp
    obtain ⟨q, rfl, hq, hlt⟩ := combosFrom_mem_structure sm [] p hp
    simpa [hq] using fun k hk => hlt k hk

/-- Witness for C7 at a concrete input: two components with 2 and 1
alternatives give 2 combinations, and the combination `[1, 0]` picks one
in-range index per component. -/
theorem C7_cross_product_size_witness :
    (recurse_species_mappings [[[0], [1]], [[2]]] [] []).length =
      (([[[0], [1]], [[2]]] : List (List (List Nat))).map List.length).prod ∧
    ([1, 0] : List Nat).length = ([[[0], [1]], [[2]]] : List (List (List Nat))).length ∧
    ∀ k, k < ([[[0], [1]], [[2]]] : List (List (List Nat))).length →
      ([1, 0] : List Nat).getD k 0 <
        (([[[0], [1]], [[2]]] : List (List (List Nat))).getD k []).length :=
  ⟨(C7_cross_product_size [[[0], [1]], [[2]]]).1,
   (C7_cross_product_size [[[0], [1]], [[2]]]).2 [1, 0] (by decide)⟩

/-! ### C10: the species dictionary registers a block only at a blank line -/

lemma species_load_append (xs : List String) :
    ∀ (ys : List String) (st : LoadState),
      species_load (xs ++ ys) st =
        match species_load xs st with
        | Except.ok st2 => species_load ys st2
        | Except.error e => Except.error e := by
  induction xs with
  | nil => intro ys st; simp [species_load]
  | cons l xs ih =>
    intro ys st
    rw [List.cons_append, species_load, species_load]
    by_cases hb : stripChars l.data = []
    · simp only [hb, if_pos rfl]
      match hn : st.lastName with
      | some nm =>
        match adjlist_to_graph st.lastRows with
        | Except.error e => simp
        | Except.ok g => simp [ih]
      | none => simp [ih]
    · simp only [if_neg hb]
      match hn : st.lastName with
      | none => simp [ih]
      | some nm =>
        by_cases hm : startsWithM "multiplicity".data l.data = true
        · simp [hm, ih]
        · simp [hm, ih]

lemma species_load_nonblank_named (ls : List String)
    (h : ∀ l ∈ ls, stripChars l.data ≠ []) :
    ∀ (nm : String) (rows : List String) (sp : SpeciesDict),
      ∃ st2, species_load ls { lastName := some nm, lastRows := rows, species := sp } =
        Except.ok st2 ∧ st2.species = sp := by
  induction ls with
  | nil => intro nm rows sp; exact ⟨_, rfl, rfl⟩
  | cons l ls ih =>
    intro nm rows sp
    have hl : stripChars l.data ≠ [] := h l (by simp)
    have hrest : ∀ x ∈ ls, stripChars x.data ≠ [] := fun x hx => h x (by simp [hx])
    rw [species_load]
    simp only [if_neg hl]
    by_cases hm : startsWithM "multiplicity".data l.data = true
    · simpa [hm] using ih hrest nm rows sp
    · simpa [hm] using ih hrest nm (rows ++ [String.mk (stripChars l.data)]) sp

/-- C10: a species block is registered only when a blank line follows
it.  If the file ends in a block with no blank line after it (any
non-empty run of non-blank lines after a well-flushed prefix), that
final block is silently dropped: loading succeeds and returns exactly
the species registered by the prefix — the final block's name is never
registered and no error is raised. -/
theorem C10_final_block_dropped (pre trailing : List String) (st : LoadState)
    (hpre : species_load pre { lastName := none, lastRows := [], species := [] } =
      Except.ok st)
    (hflushed : st.lastName = none)
    (hne : trailing ≠ [])
    (hnb : ∀ l ∈ trailing, stripChars l.data ≠ []) :
    load_species (pre ++ trailing) = Except.ok st.species := by
  have h1 := species_load_append pre trailing
    { lastName := none, lastRows := [], species := [] }
  simp only [hpre] at h1
  rw [load_species, h1]
  cases trailing with
  | nil => exact absurd rfl hne
  | cons l ls =>
    have hl : stripChars l.data ≠ [] := hnb l (by simp)
    have hrest : ∀ x ∈ ls, stripChars x.data ≠ [] := fun x hx => hnb x (by simp [hx])
    rw [species_load]
    simp only [if_neg hl, hflushed]
    obtain ⟨st2, hok, hsp⟩ :=
      species_load_nonblank_named ls hrest (String.mk (stripChars l.data)) st.lastRows st.species
    rw [hok]
    simp [hsp]

/-- Witness for C10: a dictionary whose final block `B` is not followed
by a blank line loads successfully and registers only `A`. -/
theorem C10_final_block_dropped_witness :
    load_species (["A", "1 C u0", ""] ++ ["B", "1 O u0"]) =
      Except.ok c10_pre_state.species :=
  C10_final_block_dropped ["A", "1 C u0", ""] ["B", "1 O u0"] c10_pre_state
    (by decide) (by decide) (by decide) (by decide)

/-! ### C4: bare `*` labels -/

lemma takeWhile_append_cons {p : Char → Bool} (l1 : List Char) (c : Char) (l2 : List Char)
    (h1 : ∀ x ∈ l1, p x = true) (hc : p c = false) :
    (l1 ++ c :: l2).takeWhile p = l1 := by
  induction l1 with
  | nil => simp [List.takeWhile_cons, hc]
  | cons a l ih =>
    have ha : p a = true := h1 a (by simp)
    simp [List.takeWhile_cons, ha, ih (fun x hx => h1 x (by simp [hx]))]

lemma dropWhile_append_cons {p : Char → Bool} (l1 : List Char) (c : Char) (l2 : List Char)
    (h1 : ∀ x ∈ l1, p x = true) (hc : p c = false) :
    (l1 ++ c :: l2).dropWhile p = c :: l2 := by
  induction l1 with
  | nil => simp [List.dropWhile_cons, hc]
  | cons a l ih =>
    have ha : p a = true := h1 a (by simp)
    simp [List.dropWhile_cons, ha, ih (fun x hx => h1 x (by simp [hx]))]

/-- C4 amended: a line whose label sigil is a bare `*` (a digit run,
whitespace, `*`, whitespace, anything) does **not** parse: the regex
cannot match it, `parse_atom_definition` raises
`Invalid atom definition`, and no synthetic label is ever assigned
(there is no synthetic-label mechanism in the code at all — the only
labels produced are the literal integers of explicit `*<digits>`
sigils). -/
theorem C4_bare_star_fails (ds rest : List Char) (hne : ds ≠ [])
    (hds : ∀ c ∈ ds, isDigitC c = true)
    (hstrip : stripChars (ds ++ ' ' :: '*' :: ' ' :: rest) = ds ++ ' ' :: '*' :: ' ' :: rest) :
    parse_atom_definition (String.mk (ds ++ ' ' :: '*' :: ' ' :: rest)) =
      Except.error ("Invalid atom definition: " ++
        String.mk (ds ++ ' ' :: '*' :: ' ' :: rest)) := by
  have hregex : parseRegex (ds ++ ' ' :: '*' :: ' ' :: rest) = none := by
    have htw : (ds ++ ' ' :: '*' :: ' ' :: rest).takeWhile isDigitC = ds :=
      takeWhile_append_cons ds ' ' ('*' :: ' ' :: rest) hds (by decide)
    have hdw : (ds ++ ' ' :: '*' :: ' ' :: rest).dropWhile isDigitC = ' ' :: '*' :: ' ' :: rest :=
      dropWhile_append_cons ds ' ' ('*' :: ' ' :: rest) hds (by decide)
    have hds_ne : ds.isEmpty = false := by
      cases ds with
      | nil => exact absurd rfl hne
      | cons a l => rfl
    rw [parseRegex]
    rw [htw, hdw]
    simp only [hds_ne, Bool.false_eq_true, if_false]
    have hsp1 : isSpaceC ' ' = true := rfl
    have hsp2 : isSpaceC '*' = false := rfl
    have hdg : isDigitC ' ' = false := rfl
    simp [List.takeWhile_cons, List.dropWhile_cons, hsp1, hsp2, hdg]
  rw [parse_atom_definition]
  have hdata : (String.mk (ds ++ ' ' :: '*' :: ' ' :: rest)).data =
      ds ++ ' ' :: '*' :: ' ' :: rest := rfl
  rw [hdata, hstrip, hregex]

/-- Witness for C4's amended statement at the concrete bare-star line
`1 * C u0`. -/
theorem C4_bare_star_fails_witness :
    parse_atom_definition (String.mk (['1'] ++ ' ' :: '*' :: ' ' :: ['C', ' ', 'u', '0'])) =
      Except.error ("Invalid atom definition: " ++
        String.mk (['1'] ++ ' ' :: '*' :: ' ' :: ['C', ' ', 'u', '0'])) :=
  C4_bare_star_fails ['1'] ['C', ' ', 'u', '0'] (by decide) (by decide) (by decide)

/-- C4 counterexample: the claim says a bare-`*` line parses
successfully; on the concrete line `1 * C u0` the parser instead
raises `Invalid atom definition` (and there is no synthetic `900`-base
label assignment anywhere). -/
theorem C4_bare_star_counterexample :
    parse_atom_definition "1 * C u0" = Except.error "Invalid atom definition: 1 * C u0" := by
  decide

/-! ### C6: a parse failure aborts the whole batch run -/

lemma process_reactions_append (species : SpeciesDict) (buckets : List (Nat × List String))
    (xs : List ReactionRecord) :
    ∀ (ys : List ReactionRecord) (acc : List ReactionOutput),
      process_reactions species buckets (xs ++ ys) acc =
        match process_reactions species buckets xs acc with
        | Except.ok acc2 => process_reactions species buckets ys acc2
        | Except.error e => Except.error e := by
  induction xs with
  | nil => intro ys acc; simp [process_reactions]
  | cons r xs ih =>
    intro ys acc
    rw [List.cons_append, process_reactions, process_reactions]
    cases hra : r.reactant with
    | some ra =>
      cases hpa : r.product with
      | some pa =>
        cases hpr : process_reaction species buckets ra pa with
        | error e => simp [hpr]
        | ok maps => simp [hpr, ih]
      | none => simp [ih]
    | none => cases hpa : r.product <;> simp [ih]

/-- C6 amended: a parse-level failure while processing one reaction
record does **not** abort only that record — the error propagates out
of the batch loop, so the whole run aborts with that error and every
record after the offending one (`post`, arbitrary) is never processed
and no output at all is produced. -/
theorem C6_failure_aborts_run (species : SpeciesDict) (buckets : List (Nat × List String))
    (pre : List ReactionRecord) (r : ReactionRecord) (post : List ReactionRecord)
    (acc2 : List ReactionOutput) (ra pa : String) (e : String)
    (hr : r.reactant = some ra) (hp : r.product = some pa)
    (hpre : process_reactions species buckets pre [] = Except.ok acc2)
    (hfail : process_reaction species buckets ra pa = Except.error e) :
    process_reactions species buckets (pre ++ r :: post) [] = Except.error e := by
  rw [process_reactions_append]
  simp only [hpre]
  rw [process_reactions]
  simp [hr, hp, hfail]

/-- C6 counterexample: in a batch of two records where only the first
has a malformed reactant line, the run does not continue with the
second record — the whole batch aborts with the parse error (the claim
said the remaining records would still be processed and the run would
complete). -/
theorem C6_counterexample :
    process_reactions c6_species c6_buckets [c6_bad, c6_good] [] =
      Except.error "Invalid atom definition: garbage" := by
  decide

/-- Witness for C6's amended statement: the failing record aborts the
run with its parse error even though a processable record follows. -/
theorem C6_failure_aborts_run_witness :
    process_reactions c6_species c6_buckets ([] ++ c6_bad :: [c6_good]) [] =
      Except.error "Invalid atom definition: garbage" :=
  C6_failure_aborts_run c6_species c6_buckets [] c6_bad [c6_good] [] "garbage" "1 C u0"
    "Invalid atom definition: garbage" rfl rfl (by decide) (by decide)

/-! ### C9: the ambiguity policy of the candidate loop -/

lemma match_component_from_some (species : SpeciesDict) (comp : NxGraph) :
    ∀ (rest : List String) (f : String) (acc : List (List Nat))
      (diags : List (String × String)),
      (∀ nm ∈ rest, (dict_get species nm).isSome) → f ∉ rest →
      match_component species comp rest (some f, acc, diags) =
        Except.ok (some f, acc,
          diags ++ (matching_names species comp rest).map (fun nm => (f, nm))) := by
  intro rest
  induction rest with
  | nil => intro f acc diags _ _; simp [match_component, matching_names]
  | cons nm rest ih =>
    intro f acc diags hwf hf
    have hnm : (dict_get species nm).isSome := hwf nm (by simp)
    obtain ⟨e, he⟩ := Option.isSome_iff_exists.mp hnm
    have hfo : f ∉ rest := fun h => hf (by simp [h])
    have hfne : f ≠ nm := fun h => hf (by simp [h])
    have hwfr : ∀ x ∈ rest, (dict_get species x).isSome := fun x hx => hwf x (by simp [hx])
    rw [match_component, he]
    by_cases hl : 0 < (get_label_filtered_isomorphisms comp e.2).length
    · simp only [if_pos hl, if_pos hfne]
      rw [ih f acc (diags ++ [(f, nm)]) hwfr hfo]
      simp [matching_names, List.filter_cons, he, hl]
    · simp only [if_neg hl]
      rw [ih f acc diags hwfr hfo]
      simp [matching_names, List.filter_cons, he, hl]

lemma match_component_from_none (species : SpeciesDict) (comp : NxGraph) :
    ∀ (names : List String),
      (∀ nm ∈ names, (dict_get species nm).isSome) → names.Nodup →
      match_component species comp names (none, [], []) =
        Except.ok (expected_match_result species comp names) := by
  intro names
  induction names with
  | nil => intro _ _; simp [match_component, expected_match_result, matching_names]
  | cons nm rest ih =>
    intro hwf hnd
    have hnm : (dict_get species nm).isSome := hwf nm (by simp)
    obtain ⟨e, he⟩ := Option.isSome_iff_exists.mp hnm
    have hwfr : ∀ x ∈ rest, (dict_get species x).isSome := fun x hx => hwf x (by simp [hx])
    have hnmr : nm ∉ rest := (List.nodup_cons.mp hnd).1
    have hndr : rest.Nodup := (List.nodup_cons.mp hnd).2
    rw [match_component, he]
    by_cases hl : 0 < (get_label_filtered_isomorphisms comp e.2).length
    · simp only [if_pos hl]
      rw [match_component_from_some species comp rest nm ([] ++ get_label_filtered_isomorphisms comp e.2) [] hwfr hnmr]
      simp [expected_match_result, matching_names, List.filter_cons, he, hl, isos_of]
    · simp only [if_neg hl]
      rw [ih hwfr hndr]
      simp [expected_match_result, matching_names, List.filter_cons, he, hl]

/-- C9: when the candidate names are the (distinct) bucket names and
all of them are registered species, the candidate loop keeps exactly
the first species with isomorphisms — its name and its isomorphism
list — and records one diagnostic pair per subsequently found different
matching species, whose isomorphisms are discarded. -/
theorem C9_first_species_kept (species : SpeciesDict) (comp : NxGraph) (names : List String)
    (hwf : ∀ nm ∈ names, (dict_get species nm).isSome) (hnd : names.Nodup) :
    match_component species comp names (none, [], []) =
      Except.ok (expected_match_result species comp names) :=
  match_component_from_none species comp names hwf hnd

/-- Witness for C9: a component matching both `A` and `B` keeps `A`
(the first) with its isomorphisms and records the diagnostic
`("A", "B")`; `B`'s isomorphisms are discarded. -/
theorem C9_first_species_kept_witness :
    match_component c9_species nxgC ["A", "B"] (none, [], []) =
      Except.ok (expected_match_result c9_species nxgC ["A", "B"]) :=
  C9_first_species_kept c9_species nxgC ["A", "B"] (by decide) (by decide)

/-! ### C2: labels present on only one side of the reaction -/

lemma enumFrom_filterMap_snd : ∀ (k : Nat) (xs : List (Option Int)),
    (List.enumFrom k xs).filterMap (fun q => q.2) = xs.filterMap id := by
  intro k xs
  induction xs generalizing k with
  | nil => simp
  | cons x xs ih => cases x <;> simp [List.enumFrom, List.filterMap_cons, ih]

lemma entry_labels_eq (nm : Option String) (iso : List Nat) :
    ∀ (k : Nat) (xs : List (Option Int)),
      ((List.enumFrom k xs).filterMap (fun q =>
        match q.2 with
        | some l => some { label := l, rname := nm, ridx := iso.getD q.1 0,
                           pname := none, pidx := none : MapEntry }
        | none => none)).map (fun e => e.label) = xs.filterMap id := by
  intro k xs
  induction xs generalizing k with
  | nil => simp
  | cons x xs ih =>
    cases x with
    | none =>
      rw [show List.enumFrom k (none :: xs) = (k, (none : Option Int)) :: List.enumFrom (k + 1) xs
        from rfl]
      rw [List.filterMap_cons]
      simpa using ih (k + 1)
    | some v =>
      rw [show List.enumFrom k (some v :: xs) = (k, some v) :: List.enumFrom (k + 1) xs
        from rfl]
      rw [List.filterMap_cons]
      simpa using ih (k + 1)

lemma range_map_nodeIds (l : List MoleculeGraph) :
    (List.range l.length).map (fun i => (l.getD i emptyMoleculeGraph).nodeIds.filterMap id) =
      l.map (fun s => s.nodeIds.filterMap id) := by
  induction l with
  | nil => simp
  | cons a l ih =>
    rw [List.length_cons, List.range_succ_eq_map, List.map_cons, List.map_map, List.map_cons]
    refine congrArg₂ List.cons rfl ?_
    simpa [Function.comp_def, List.getElem?_cons_succ] using ih

lemma reactant_entries_labels (rsubs : List MoleculeGraph) (rnames : List (Option String))
    (rmaps : List (List (List Nat))) (rc : List Nat) (hrc : rc.length = rsubs.length) :
    (reactant_entries rsubs rnames rmaps rc).map (fun e => e.label) = side_labels rsubs := by
  rw [reactant_entries, side_labels]
  rw [List.map_flatten, List.map_map]
  have h1 : (fun p : Nat × Nat =>
      (((rsubs.getD p.1 emptyMoleculeGraph).nodeIds.enum.filterMap (fun q =>
        match q.2 with
        | some l => some { label := l, rname := rnames.getD p.1 none,
                           ridx := ((rmaps.getD p.1 []).getD p.2 []).getD q.1 0,
                           pname := none, pidx := none : MapEntry }
        | none => none)).map (fun e => e.label))) =
      (fun p : Nat × Nat => (rsubs.getD p.1 emptyMoleculeGraph).nodeIds.filterMap id) := by
    funext p
    exact entry_labels_eq (rnames.getD p.1 none) ((rmaps.getD p.1 []).getD p.2 []) 0
      (rsubs.getD p.1 emptyMoleculeGraph).nodeIds
  rw [show (List.map (fun e => e.label) ∘ fun p : Nat × Nat =>
      ((rsubs.getD p.1 emptyMoleculeGraph).nodeIds.enum.filterMap (fun q =>
        match q.2 with
        | some l => some { label := l, rname := rnames.getD p.1 none,
                           ridx := ((rmaps.getD p.1 []).getD p.2 []).getD q.1 0,
                           pname := none, pidx := none : MapEntry }
        | none => none))) =
      (fun p : Nat × Nat => (rsubs.getD p.1 emptyMoleculeGraph).nodeIds.filterMap id) from h1]
  have h2 : rc.enum.map (fun p : Nat × Nat =>
      (rsubs.getD p.1 emptyMoleculeGraph).nodeIds.filterMap id) =
      (rc.enum.map Prod.fst).map (fun i =>
        (rsubs.getD i emptyMoleculeGraph).nodeIds.filterMap id) := by
    rw [List.map_map]; rfl
  rw [h2, List.enum_map_fst, hrc, range_map_nodeIds]

lemma reactant_entries_pfields (rsubs : List MoleculeGraph) (rnames : List (Option String))
    (rmaps : List (List (List Nat))) (rc : List Nat) :
    ∀ e ∈ reactant_entries rsubs rnames rmaps rc, e.pname = none ∧ e.pidx = none := by
  intro e he
  rw [reactant_entries, List.mem_flatten] at he
  obtain ⟨l, hl, hel⟩ := he
  rw [List.mem_map] at hl
  obtain ⟨p, _, rfl⟩ := hl
  rw [List.mem_filterMap] at hel
  obtain ⟨q, _, hq⟩ := hel
  match hq2 : q.2 with
  | some lab => rw [hq2] at hq; cases hq; exact ⟨rfl, rfl⟩
  | none => rw [hq2] at hq; cases hq

lemma pc_labels_enum (psubs : List MoleculeGraph) (pc : List Nat)
    (hpc : pc.length = psubs.length) :
    pc_labels psubs pc.enum = side_labels psubs := by
  rw [pc_labels, side_labels]
  have h2 : pc.enum.map (fun p : Nat × Nat =>
      (psubs.getD p.1 emptyMoleculeGraph).nodeIds.filterMap id) =
      (pc.enum.map Prod.fst).map (fun i =>
        (psubs.getD i emptyMoleculeGraph).nodeIds.filterMap id) := by
    rw [List.map_map]; rfl
  rw [h2, List.enum_map_fst, hpc, range_map_nodeIds]

lemma update_first_entry_ok (nm : Option String) (idx : Nat) :
    ∀ (m : List MapEntry) (l : Int), l ∈ m.map (fun e => e.label) →
      ∃ m2, update_first_entry m l nm idx = some m2 ∧
        m2.map (fun e => e.label) = m.map (fun e => e.label) ∧
        ∀ e ∈ m, e.label ≠ l → e ∈ m2 := by
  intro m
  induction m with
  | nil => intro l hl; simp at hl
  | cons a m ih =>
    intro l hl
    by_cases ha : a.label = l
    · refine ⟨{ a with pname := nm, pidx := some idx } :: m, ?_, by simp [ha], ?_⟩
      · rw [update_first_entry, if_pos ha]
      · intro e he hlab
        rcases List.mem_cons.mp he with rfl | hm
        · exact absurd ha hlab
        · exact List.mem_cons_of_mem _ hm
    · have hl2 : l ∈ m.map (fun e => e.label) := by
        rcases List.mem_map.mp hl with ⟨e, he, rfl⟩
        rcases List.mem_cons.mp he with rfl | hm
        · exact absurd rfl ha
        · exact List.mem_map.mpr ⟨e, hm, rfl⟩
      obtain ⟨m2, hup, hlabels, huntouched⟩ := ih l hl2
      refine ⟨a :: m2, ?_, by simp [hlabels], ?_⟩
      · rw [update_first_entry, if_neg ha, hup]
      · intro e he hlab
        rcases List.mem_cons.mp he with rfl | hm
        · exact List.mem_cons.mpr (Or.inl rfl)
        · exact List.mem_cons_of_mem _ (huntouched e hm hlab)

lemma product_apply_component_ok (nm : Option String) (iso : List Nat) :
    ∀ (qs : List (Nat × Option Int)) (m : List MapEntry),
      (∀ l ∈ qs.filterMap (fun q => q.2), l ∈ m.map (fun e => e.label)) →
      ∃ m2, product_apply_component nm iso qs m = Except.ok m2 ∧
        m2.map (fun e => e.label) = m.map (fun e => e.label) ∧
        ∀ e ∈ m, e.label ∉ qs.filterMap (fun q => q.2) → e ∈ m2 := by
  intro qs
  induction qs with
  | nil => intro m _; exact ⟨m, rfl, rfl, fun e he _ => he⟩
  | cons q qs ih =>
    intro m hin
    match hq2 : q.2 with
    | none =>
      obtain ⟨m2, hok, hlabels, hunt⟩ := ih m (by
        intro l hl
        exact hin l (by simp [List.filterMap_cons, hq2, hl]))
      refine ⟨m2, ?_, hlabels, ?_⟩
      · rw [product_apply_component, hq2]
        exact hok
      · intro e he hlab
        refine hunt e he (fun hc => hlab ?_)
        simp [List.filterMap_cons, hq2, hc]
    | some l =>
      have hl : l ∈ m.map (fun e => e.label) :=
        hin l (by simp [List.filterMap_cons, hq2])
      obtain ⟨m1, hup, hlabels1, hunt1⟩ :=
        update_first_entry_ok nm (iso.getD q.1 0) m l hl
      obtain ⟨m2, hok, hlabels2, hunt2⟩ := ih m1 (by
        intro x hx
        rw [hlabels1]
        exact hin x (by simp [List.filterMap_cons, hq2, hx]))
      refine ⟨m2, ?_, by rw [hlabels2, hlabels1], ?_⟩
      · rw [product_apply_component, hq2]
        simp only [hup]
        exact hok
      · intro e he hlab
        have hne : e.label ≠ l := fun hc => hlab (by simp [List.filterMap_cons, hq2, hc])
        have he1 : e ∈ m1 := hunt1 e he hne
        refine hunt2 e he1 (fun hc => hlab ?_)
        simp [List.filterMap_cons, hq2, hc]

lemma product_apply_ok (psubs : List MoleculeGraph) (pnames : List (Option String))
    (pmaps : List (List (List Nat))) :
    ∀ (pcs : List (Nat × Nat)) (m : List MapEntry),
      (∀ l ∈ pc_labels psubs pcs, l ∈ m.map (fun e => e.label)) →
      ∃ m2, product_apply psubs pnames pmaps pcs m = Except.ok m2 ∧
        m2.map (fun e => e.label) = m.map (fun e => e.label) ∧
        ∀ e ∈ m, e.label ∉ pc_labels psubs pcs → e ∈ m2 := by
  intro pcs
  induction pcs with
  | nil => intro m _; exact ⟨m, rfl, rfl, fun e he _ => he⟩
  | cons p pcs ih =>
    intro m hin
    have hq : ((psubs.getD p.1 emptyMoleculeGraph).nodeIds.enum.filterMap (fun q => q.2)) =
        (psubs.getD p.1 emptyMoleculeGraph).nodeIds.filterMap id :=
      enumFrom_filterMap_snd 0 _
    have hsplit : pc_labels psubs (p :: pcs) =
        (psubs.getD p.1 emptyMoleculeGraph).nodeIds.filterMap id ++ pc_labels psubs pcs := by
      rw [pc_labels, pc_labels, List.map_cons, List.flatten_cons]
    obtain ⟨m1, hok1, hlabels1, hunt1⟩ :=
      product_apply_component_ok (pnames.getD p.1 none) ((pmaps.getD p.1 []).getD p.2 [])
        (psubs.getD p.1 emptyMoleculeGraph).nodeIds.enum m (by
          intro l hl
          rw [hq] at hl
          exact hin l (by rw [hsplit]; exact List.mem_append_left _ hl))
    obtain ⟨m2, hok2, hlabels2, hunt2⟩ := ih m1 (by
      intro l hl
      rw [hlabels1]
      exact hin l (by rw [hsplit]; exact List.mem_append_right _ hl))
    refine ⟨m2, ?_, by rw [hlabels2, hlabels1], ?_⟩
    · rw [product_apply, hok1]
      exact hok2
    · intro e he hlab
      rw [hsplit] at hlab
      have he1 : e ∈ m1 := by
        refine hunt1 e he (fun hc => hlab ?_)
        rw [hq] at hc
        exact List.mem_append_left _ hc
      exact hunt2 e he1 (fun hc => hlab (List.mem_append_right _ hc))

/-- C2 amended: during reconciliation of one combination pair, a
conserved label appearing only among the **reactant** atoms is
permitted and yields a partial entry (product fields left `None`); but
the reconciliation as a whole only succeeds when every label carried by
a product atom also appears among the reactant atoms — a label present
only on the product side makes `[x for x in mapping if x[0] == _id][0]`
raise IndexError (see the counterexample), aborting the run. -/
theorem C2_partial_entries (rsubs psubs : List MoleculeGraph)
    (rnames pnames : List (Option String)) (rmaps pmaps : List (List (List Nat)))
    (rc pc : List Nat)
    (hrc : rc.length = rsubs.length) (hpc : pc.length = psubs.length)
    (hsub : ∀ l ∈ side_labels psubs, l ∈ side_labels rsubs) :
    ∃ es, build_candidate rsubs psubs rnames pnames rmaps pmaps rc pc = Except.ok es ∧
      ∀ l ∈ side_labels rsubs, l ∉ side_labels psubs →
        ∃ e ∈ es, e.label = l ∧ e.pname = none ∧ e.pidx = none := by
  have hbase := reactant_entries_labels rsubs rnames rmaps rc hrc
  have hpcl := pc_labels_enum psubs pc hpc
  obtain ⟨m2, hok, hlabels, hunt⟩ :=
    product_apply_ok psubs pnames pmaps pc.enum (reactant_entries rsubs rnames rmaps rc) (by
      intro l hl
      rw [hpcl] at hl
      rw [hbase]
      exact hsub l hl)
  refine ⟨m2, ?_, ?_⟩
  · rw [build_candidate, hok]
  · intro l hlr hlp
    have : l ∈ (reactant_entries rsubs rnames rmaps rc).map (fun e => e.label) := by
      rw [hbase]; exact hlr
    obtain ⟨e, he, rfl⟩ := List.mem_map.mp this
    have hpf := reactant_entries_pfields rsubs rnames rmaps rc e he
    refine ⟨e, ?_, rfl, hpf.1, hpf.2⟩
    refine hunt e he ?_
    rw [hpcl]
    exact hlp

/-- C2 counterexample: the claim says reconciliation also succeeds when
a conserved label occurs only among product atoms; processing the
reaction whose product carries label `*1` on an atom while the
reactant carries no labels instead raises IndexError and aborts. -/
theorem C2_product_only_label_counterexample :
    process_reaction c6_species c6_buckets "1 C u0" "1 *1 C u0" =
      Except.error "IndexError: list index out of range" := by
  decide

/-- Witness for C2's amended statement: with label 5 only on the
reactant side, reconciliation succeeds and emits the partial entry. -/
theorem C2_partial_entries_witness :
    ∃ es, build_candidate [molC5] [molC] [some "A"] [some "A"] [[[0]]] [[[0]]] [0] [0] =
        Except.ok es ∧
      ∀ l ∈ side_labels [molC5], l ∉ side_labels [molC] →
        ∃ e ∈ es, e.label = l ∧ e.pname = none ∧ e.pidx = none :=
  C2_partial_entries [molC5] [molC] [some "A"] [some "A"] [[[0]]] [[[0]]] [0] [0]
    (by decide) (by decide) (by decide)

/-! ### C8: deduplication of candidate maps -/

lemma insert_unique_nodup (acc : List (Finset MapEntry)) (s : Finset MapEntry)
    (h : acc.Nodup) : (insert_unique acc s).Nodup := by
  rw [insert_unique]
  by_cases hs : s ∈ acc
  · rw [if_pos hs]; exact h
  · rw [if_neg hs]
    rw [List.nodup_append]
    refine ⟨h, List.nodup_singleton s, ?_⟩
    intro x hx hxs
    rw [List.mem_singleton] at hxs
    exact hs (hxs ▸ hx)

lemma insert_unique_mem (acc : List (Finset MapEntry)) (s x : Finset MapEntry) :
    x ∈ insert_unique acc s ↔ x ∈ acc ∨ x = s := by
  rw [insert_unique]
  by_cases hs : s ∈ acc
  · rw [if_pos hs]
    constructor
    · exact Or.inl
    · rintro (hx | rfl)
      · exact hx
      · exact hs
  · rw [if_neg hs]
    simp

lemma mappings_inner_ok (bc : List Nat → List Nat → Except String (List MapEntry))
    (rc : List Nat) :
    ∀ (pcs : List (List Nat)) (acc res : List (Finset MapEntry)),
      mappings_inner bc rc pcs acc = Except.ok res →
      (acc.Nodup → res.Nodup) ∧
      ∀ x, x ∈ res ↔ x ∈ acc ∨ ∃ pc ∈ pcs, ∃ m, bc rc pc = Except.ok m ∧ m.toFinset = x := by
  intro pcs
  induction pcs with
  | nil =>
    intro acc res h
    rw [mappings_inner] at h
    cases h
    exact ⟨fun hn => hn, fun x => by simp⟩
  | cons pc pcs ih =>
    intro acc res h
    rw [mappings_inner] at h
    cases hm : bc rc pc with
    | error e => rw [hm] at h; cases h
    | ok m =>
      rw [hm] at h
      obtain ⟨hnd, hmem⟩ := ih (insert_unique acc m.toFinset) res h
      refine ⟨fun hn => hnd (insert_unique_nodup acc m.toFinset hn), ?_⟩
      intro x
      rw [hmem x, insert_unique_mem]
      constructor
      · rintro ((hx | rfl) | ⟨pc2, hpc2, m2, hbc2, hx⟩)
        · exact Or.inl hx
        · exact Or.inr ⟨pc, by simp, m, hm, rfl⟩
        · exact Or.inr ⟨pc2, by simp [hpc2], m2, hbc2, hx⟩
      · rintro (hx | ⟨pc2, hpc2, m2, hbc2, hx⟩)
        · exact Or.inl (Or.inl hx)
        · rcases List.mem_cons.mp hpc2 with rfl | hpc2
          · rw [hm] at hbc2
            cases hbc2
            exact Or.inl (Or.inr hx.symm)
          · exact Or.inr ⟨pc2, hpc2, m2, hbc2, hx⟩

lemma mappings_loop_ok (bc : List Nat → List Nat → Except String (List MapEntry)) :
    ∀ (rcs : List (List Nat)) (pcombs : List (List Nat)) (acc res : List (Finset MapEntry)),
      mappings_loop bc rcs pcombs acc = Except.ok res →
      (acc.Nodup → res.Nodup) ∧
      ∀ x, x ∈ res ↔ x ∈ acc ∨
        ∃ rc ∈ rcs, ∃ pc ∈ pcombs, ∃ m, bc rc pc = Except.ok m ∧ m.toFinset = x := by
  intro rcs
  induction rcs with
  | nil =>
    intro pcombs acc res h
    rw [mappings_loop] at h
    cases h
    exact ⟨fun hn => hn, fun x => by simp⟩
  | cons rc rcs ih =>
    intro pcombs acc res h
    rw [mappings_loop] at h
    cases hm : mappings_inner bc rc pcombs acc with
    | error e => rw [hm] at h; cases h
    | ok acc2 =>
      rw [hm] at h
      obtain ⟨hnd1, hmem1⟩ := mappings_inner_ok bc rc pcombs acc acc2 hm
      obtain ⟨hnd2, hmem2⟩ := ih pcombs acc2 res h
      refine ⟨fun hn => hnd2 (hnd1 hn), ?_⟩
      intro x
      rw [hmem2 x, hmem1 x]
      constructor
      · rintro ((hx | ⟨pc, hpc, m, hbc, hxm⟩) | ⟨rc2, hrc2, pc2, hpc2, m2, hbc2, hxm2⟩)
        · exact Or.inl hx
        · exact Or.inr ⟨rc, by simp, pc, hpc, m, hbc, hxm⟩
        · exact Or.inr ⟨rc2, by simp [hrc2], pc2, hpc2, m2, hbc2, hxm2⟩
      · rintro (hx | ⟨rc2, hrc2, pc2, hpc2, m2, hbc2, hxm2⟩)
        · exact Or.inl (Or.inl hx)
        · rcases List.mem_cons.mp hrc2 with rfl | hrc2
          · exact Or.inl (Or.inr ⟨pc2, hpc2, m2, hbc2, hxm2⟩)
          · exact Or.inr ⟨rc2, hrc2, pc2, hpc2, m2, hbc2, hxm2⟩

/-- C8: the final mappings collection of a reaction is deduplicated by
unordered entry-set content: it is pairwise distinct, and a set of
entries appears in it exactly when some (reactant-combination,
product-combination) pair produces a candidate whose entries, as an
unordered set, equal it — so set-equal candidates from different pairs
contribute a single element. -/
theorem C8_dedup_by_content (rsubs psubs : List MoleculeGraph)
    (rnames pnames : List (Option String)) (rmaps pmaps : List (List (List Nat)))
    (rcombs pcombs : List (List Nat)) (res : List (Finset MapEntry))
    (h : mappings_loop (build_candidate rsubs psubs rnames pnames rmaps pmaps)
          rcombs pcombs [] = Except.ok res) :
    res.Nodup ∧
    ∀ x, x ∈ res ↔ ∃ rc ∈ rcombs, ∃ pc ∈ pcombs, ∃ m,
      build_candidate rsubs psubs rnames pnames rmaps pmaps rc pc = Except.ok m ∧
      m.toFinset = x := by
  obtain ⟨hnd, hmem⟩ :=
    mappings_loop_ok (build_candidate rsubs psubs rnames pnames rmaps pmaps)
      rcombs pcombs [] res h
  refine ⟨hnd List.nodup_nil, fun x => ?_⟩
  rw [hmem x]
  simp

/-- Witness for C8: the four symmetric combination pairs of the CH₂
component all build the same entry set, which appears exactly once in
the final list. -/
theorem C8_dedup_by_content_witness :
    ([c8_set] : List (Finset MapEntry)).Nodup ∧
    ∀ x, x ∈ ([c8_set] : List (Finset MapEntry)) ↔
      ∃ rc ∈ [[0], [1]], ∃ pc ∈ ([[0], [1]] : List (List Nat)), ∃ m,
        build_candidate [c8_sub] [c8_sub] [some "A"] [some "A"]
          [[[0, 1, 2], [0, 2, 1]]] [[[0, 1, 2], [0, 2, 1]]] rc pc = Except.ok m ∧
        m.toFinset = x :=
  C8_dedup_by_content [c8_sub] [c8_sub] [some "A"] [some "A"]
    [[[0, 1, 2], [0, 2, 1]]] [[[0, 1, 2], [0, 2, 1]]] [[0], [1]] [[0], [1]]
    [c8_set] (by decide)

/-! ### C1: components matching zero species -/

lemma match_component_ok_of_wf (species : SpeciesDict) (comp : NxGraph) :
    ∀ (names : List String), (∀ nm ∈ names, (dict_get species nm).isSome) →
      ∀ st, ∃ st2, match_component species comp names st = Except.ok st2 := by
  intro names
  induction names with
  | nil => intro _ st; exact ⟨st, rfl⟩
  | cons nm rest ih =>
    intro hwf st
    obtain ⟨e, he⟩ := Option.isSome_iff_exists.mp (hwf nm (by simp))
    have hwfr : ∀ x ∈ rest, (dict_get species x).isSome := fun x hx => hwf x (by simp [hx])
    rw [match_component, he]
    simp only []
    by_cases hl : 0 < (get_label_filtered_isomorphisms comp e.2).length
    · simp only [if_pos hl]
      cases hst : st.1 with
      | some kept =>
        simp only [hst]
        by_cases hk : kept ≠ nm
        · simp only [if_pos hk]; exact ih hwfr _
        · simp only [if_neg hk]; exact ih hwfr _
      | none => simp only [hst]; exact ih hwfr _
    · simp only [if_neg hl]; exact ih hwfr _

lemma match_component_all_empty (species : SpeciesDict) (comp : NxGraph) :
    ∀ (names : List String), (∀ nm ∈ names, (dict_get species nm).isSome) →
      (∀ nm ∈ names, ∀ e, dict_get species nm = some e →
        get_label_filtered_isomorphisms comp e.2 = []) →
      ∀ st, match_component species comp names st = Except.ok st := by
  intro names
  induction names with
  | nil => intro _ _ st; rfl
  | cons nm rest ih =>
    intro hwf hempty st
    obtain ⟨e, he⟩ := Option.isSome_iff_exists.mp (hwf nm (by simp))
    have hwfr : ∀ x ∈ rest, (dict_get species x).isSome := fun x hx => hwf x (by simp [hx])
    have hemptyr : ∀ x ∈ rest, ∀ e2, dict_get species x = some e2 →
        get_label_filtered_isomorphisms comp e2.2 = [] :=
      fun x hx => hempty x (by simp [hx])
    have hiso : get_label_filtered_isomorphisms comp e.2 = [] := hempty nm (by simp) e he
    rw [match_component, he]
    simp only [hiso, List.length_nil, Nat.lt_irrefl, if_false]
    exact ih hwfr hemptyr st

lemma match_side_ok (species : SpeciesDict) (buckets : List (Nat × List String)) :
    ∀ (pairs : List (MoleculeGraph × NxGraph)),
      (∀ pr ∈ pairs, (ndict_get buckets pr.1.nodeLabels.length).isSome) →
      (∀ pr ∈ pairs, ∀ nm ∈ (ndict_get buckets pr.1.nodeLabels.length).getD [],
        (dict_get species nm).isSome) →
      ∀ (a : List (Option String)) (b : List (List (List Nat))),
        ∃ rN rM, match_side species buckets pairs (a, b) = Except.ok (a ++ rN, b ++ rM) ∧
          rN.length = pairs.length ∧ rM.length = pairs.length ∧
          ∀ k, k < pairs.length →
            (∀ nm ∈ (ndict_get buckets
                ((pairs.getD k (emptyMoleculeGraph, emptyNxGraph)).1.nodeLabels.length)).getD [],
              ∀ e, dict_get species nm = some e →
                get_label_filtered_isomorphisms
                  (pairs.getD k (emptyMoleculeGraph, emptyNxGraph)).2 e.2 = []) →
            rN.getD k (some "") = none ∧ rM.getD k [[]] = [] := by
  intro pairs
  induction pairs with
  | nil =>
    intro _ _ a b
    exact ⟨[], [], by simp [match_side], rfl, rfl, fun k hk => absurd hk (by simp)⟩
  | cons pr rest ih =>
    intro hbk hsp a b
    obtain ⟨names, hlk⟩ := Option.isSome_iff_exists.mp (hbk pr (by simp))
    have hwf : ∀ nm ∈ names, (dict_get species nm).isSome := by
      have := hsp pr (by simp)
      rw [hlk] at this
      simpa using this
    obtain ⟨st2, hok⟩ :=
      match_component_ok_of_wf species pr.2 names hwf (none, [], [])
    have hbkr : ∀ x ∈ rest, (ndict_get buckets x.1.nodeLabels.length).isSome :=
      fun x hx => hbk x (by simp [hx])
    have hspr : ∀ x ∈ rest, ∀ nm ∈ (ndict_get buckets x.1.nodeLabels.length).getD [],
        (dict_get species nm).isSome :=
      fun x hx => hsp x (by simp [hx])
    obtain ⟨rN, rM, hside, hlenN, hlenM, hempty⟩ := ih hbkr hspr (a ++ [st2.1]) (b ++ [st2.2.1])
    refine ⟨st2.1 :: rN, st2.2.1 :: rM, ?_, by simp [hlenN], by simp [hlenM], ?_⟩
    · rw [show match_side species buckets (pr :: rest) (a, b) =
          match ndict_get buckets pr.1.nodeLabels.length with
          | none => Except.error ("KeyError: " ++ toString pr.1.nodeLabels.length)
          | some names =>
            match match_component species pr.2 names (none, [], []) with
            | Except.error e => Except.error e
            | Except.ok st => match_side species buckets rest (a ++ [st.1], b ++ [st.2.1])
        from by cases pr; rfl]
      simp only [hlk, hok, hside]
      simp
    · intro k hk hcond
      match k with
      | 0 =>
        have hcond0 : ∀ nm ∈ names, ∀ e, dict_get species nm = some e →
            get_label_filtered_isomorphisms pr.2 e.2 = [] := by
          have h0 : ((pr :: rest).getD 0 (emptyMoleculeGraph, emptyNxGraph)) = pr := rfl
          rw [h0, hlk] at hcond
          simpa using hcond
        have hst2 : st2 = (none, [], []) := by
          have := match_component_all_empty species pr.2 names hwf hcond0 (none, [], [])
          rw [hok] at this
          exact Except.ok.inj this
        rw [hst2]
        exact ⟨rfl, rfl⟩
      | k + 1 =>
        have hkr : k < rest.length := by simpa using hk
        have := hempty k hkr (by simpa using hcond)
        simpa using this

/-- With an empty isomorphism list for some component, the side yields
zero combinations. -/
lemma recurse_empty_component (sm : List (List (List Nat)))
    (h : ∃ k, k < sm.length ∧ sm.getD k [] = []) :
    recurse_species_mappings sm [] [] = [] := by
  obtain ⟨k, hk, hsm⟩ := h
  rw [recurse_species_mappings_eq]
  rw [List.nil_append]
  have hlen : (combosFrom sm []).length = 0 := by
    rw [combosFrom_length]
    apply List.prod_eq_zero
    rw [List.mem_map]
    refine ⟨sm.getD k [], ?_, by rw [hsm]; rfl⟩
    rw [List.getD_eq_getElem sm [] hk]
    exact List.getElem_mem hk
  exact List.length_eq_zero.mp hlen

/-- C1 amended: when every component's atom count has a bucket of
registered candidate species, the matching stage never aborts — a
component for which no candidate yields isomorphisms simply ends with
`species_names[i] = None` and an empty isomorphism list, and any such
empty component makes the whole side contribute zero combinations (so
the reaction emits no atom identities at all).  When a component's atom
count has **no** bucket, however, the lookup raises KeyError and the
run aborts (see the counterexample). -/
theorem C1_no_species_match (species : SpeciesDict) (buckets : List (Nat × List String))
    (pairs : List (MoleculeGraph × NxGraph))
    (hbk : ∀ pr ∈ pairs, (ndict_get buckets pr.1.nodeLabels.length).isSome)
    (hsp : ∀ pr ∈ pairs, ∀ nm ∈ (ndict_get buckets pr.1.nodeLabels.length).getD [],
      (dict_get species nm).isSome) :
    ∃ accN accM, match_side species buckets pairs ([], []) = Except.ok (accN, accM) ∧
      accN.length = pairs.length ∧ accM.length = pairs.length ∧
      (∀ k, k < pairs.length →
        (∀ nm ∈ (ndict_get buckets
            ((pairs.getD k (emptyMoleculeGraph, emptyNxGraph)).1.nodeLabels.length)).getD [],
          ∀ e, dict_get species nm = some e →
            get_label_filtered_isomorphisms
              (pairs.getD k (emptyMoleculeGraph, emptyNxGraph)).2 e.2 = []) →
        accN.getD k (some "") = none ∧ accM.getD k [[]] = []) ∧
      ((∃ k, k < accM.length ∧ accM.getD k [] = []) →
        recurse_species_mappings accM [] [] = []) := by
  obtain ⟨rN, rM, hside, hlenN, hlenM, hempty⟩ := match_side_ok species buckets pairs hbk hsp [] []
  exact ⟨rN, rM, by simpa using hside, hlenN, hlenM, hempty,
    fun h => recurse_empty_component rM h⟩

/-- C1 counterexample: with only a two-atom species registered, a
reaction whose reactant is a single atom (atom count 1, no bucket)
aborts processing with KeyError instead of continuing. -/
theorem C1_counterexample :
    process_reaction c1_species (build_atom_count_map c1_species) "1 C u0" "1 C u0" =
      Except.error "KeyError: 1" := by
  decide

/-- Witness for C1's amended statement: an oxygen component whose atom
count has a bucket (the one-carbon species `A`) but no matching species
leaves its name `None`, its isomorphism list empty, and the side with
zero combinations. -/
theorem C1_no_species_match_witness :
    ∃ accN accM,
      match_side c6_species c6_buckets [(molO, nxgO)] ([], []) = Except.ok (accN, accM) ∧
      accN.length = [(molO, nxgO)].length ∧ accM.length = [(molO, nxgO)].length ∧
      (∀ k, k < [(molO, nxgO)].length →
        (∀ nm ∈ (ndict_get c6_buckets
            (([(molO, nxgO)].getD k (emptyMoleculeGraph, emptyNxGraph)).1.nodeLabels.length)).getD [],
          ∀ e, dict_get c6_species nm = some e →
            get_label_filtered_isomorphisms
              ([(molO, nxgO)].getD k (emptyMoleculeGraph, emptyNxGraph)).2 e.2 = []) →
        accN.getD k (some "") = none ∧ accM.getD k [[]] = []) ∧
      ((∃ k, k < accM.length ∧ accM.getD k [] = []) →
        recurse_species_mappings accM [] [] = []) :=
  C1_no_species_match c6_species c6_buckets [(molO, nxgO)] (by decide) (by decide)

/-! ### C5: the graph builder's symmetry invariants -/

lemma getD_set (l : List α) (i j : Nat) (v d : α) :
    (l.set i v).getD j d = if i = j ∧ j < l.length then v else l.getD j d := by
  induction l generalizing i j with
  | nil => simp
  | cons a l ih =>
    match i, j with
    | 0, 0 => simp
    | 0, j + 1 => simp
    | i + 1, 0 => simp
    | i + 1, j + 1 =>
      rw [List.set_cons_succ, List.getD_cons_succ, List.getD_cons_succ, ih]
      simp [Nat.succ_lt_succ_iff]

lemma getD_replicate (n i : Nat) (a d : α) :
    (List.replicate n a).getD i d = if i < n then a else d := by
  induction n generalizing i with
  | zero => simp
  | succ n ih =>
    match i with
    | 0 => simp [List.replicate]
    | i + 1 => rw [List.replicate, List.getD_cons_succ, ih]; simp

lemma cell_set2d (m : List (List α)) (i j a b : Nat) (v d : α) :
    ((set2d m i j v).getD a []).getD b d =
      if a = i ∧ b = j ∧ i < m.length ∧ j < (m.getD i []).length then v
      else (m.getD a []).getD b d := by
  rw [set2d, getD_set]
  by_cases hai : a = i
  · subst hai
    by_cases hin : a < m.length
    · rw [if_pos ⟨rfl, hin⟩, getD_set]
      by_cases hbj : b = j
      · subst hbj
        by_cases hbl : b < (m.getD a []).length
        · rw [if_pos ⟨rfl, hbl⟩, if_pos ⟨rfl, rfl, hin, hbl⟩]
        · rw [if_neg (fun hc => hbl hc.2), if_neg (fun hc => hbl hc.2.2.2)]
      · rw [if_neg (fun hc => hbj hc.1.symm), if_neg (fun hc => hbj hc.2.1)]
    · rw [if_neg (fun hc => hin hc.2), if_neg (fun hc => hin hc.2.2.1)]
  · rw [if_neg (fun hc => hai hc.1.symm), if_neg (fun hc => hai hc.1)]

lemma length_set2d (m : List (List α)) (i j : Nat) (v : α) :
    (set2d m i j v).length = m.length := by
  rw [set2d, List.length_set]

lemma rowlen_set2d (m : List (List α)) (i j a : Nat) (v : α) :
    ((set2d m i j v).getD a []).length = (m.getD a []).length := by
  rw [set2d, getD_set]
  by_cases h : i = a ∧ a < m.length
  · rw [if_pos h, List.length_set, h.1]
  · rw [if_neg h]

lemma row_set2d_ne (m : List (List α)) (i j a : Nat) (v : α) (h : a ≠ i) :
    (set2d m i j v).getD a [] = m.getD a [] := by
  rw [set2d, getD_set, if_neg (fun hc => h hc.1.symm)]

lemma lastWrite_some (resolve : Int → Option Nat) :
    ∀ (bs : List (Int × String)) (j : Nat) (s : String),
      lastWrite resolve bs j = some s → ∃ b ∈ bs, resolve b.1 = some j ∧ b.2 = s := by
  intro bs
  induction bs with
  | nil => intro j s h; cases h
  | cons b bs ih =>
    intro j s h
    rw [lastWrite] at h
    cases hlw : lastWrite resolve bs j with
    | some s2 =>
      rw [hlw] at h
      cases h
      obtain ⟨b2, hb2, hr, hs⟩ := ih j s hlw
      exact ⟨b2, by simp [hb2], hr, hs⟩
    | none =>
      rw [hlw] at h
      by_cases hr : resolve b.1 = some j
      · rw [if_pos hr] at h
        cases h
        exact ⟨b, by simp, hr, rfl⟩
      · rw [if_neg hr] at h
        cases h

lemma lastWrite_isSome (resolve : Int → Option Nat) :
    ∀ (bs : List (Int × String)) (j : Nat) (b : Int × String),
      b ∈ bs → resolve b.1 = some j → lastWrite resolve bs j ≠ none := by
  intro bs
  induction bs with
  | nil => intro j b hb; cases hb
  | cons b2 bs ih =>
    intro j b hb hr
    rw [lastWrite]
    cases hlw : lastWrite resolve bs j with
    | some s => simp
    | none =>
      rcases List.mem_cons.mp hb with rfl | hbm
      · rw [if_pos hr]; simp
      · exact absurd hlw (ih j b hbm hr)

lemma lastWrite_unique (resolve : Int → Option Nat)
    (hinj : ∀ k1 k2 j, resolve k1 = some j → resolve k2 = some j → k1 = k2) :
    ∀ (bs : List (Int × String)) (j : Nat) (b : Int × String),
      (bs.map (fun x => x.1)).Nodup → b ∈ bs → resolve b.1 = some j →
      lastWrite resolve bs j = some b.2 := by
  intro bs
  induction bs with
  | nil => intro j b _ hb; cases hb
  | cons b2 bs ih =>
    intro j b hnd hb hr
    rw [List.map_cons] at hnd
    have hnd2 := List.nodup_cons.mp hnd
    rw [lastWrite]
    rcases List.mem_cons.mp hb with rfl | hbm
    · cases hlw : lastWrite resolve bs j with
      | some s =>
        obtain ⟨b3, hb3, hr3, hs3⟩ := lastWrite_some resolve bs j s hlw
        have : b3.1 = b.1 := hinj b3.1 b.1 j hr3 hr
        exact absurd (this ▸ List.mem_map_of_mem (fun x => x.1) hb3) hnd2.1
      | none => rw [if_pos hr]
    · rw [ih j b hnd2.2 hbm hr]

lemma apply_row_ok (resolve : Int → Option Nat) (i w : Nat) :
    ∀ (bs : List (Int × String)) (A : List (List Int)) (L : List (List (Option String))),
      i < A.length → i < L.length →
      (∀ a, a < A.length → (A.getD a []).length = w) →
      (∀ a, a < L.length → (L.getD a []).length = w) →
      (∀ b ∈ bs, ∃ j, resolve b.1 = some j ∧ j < w) →
      ∃ A2 L2, apply_row resolve i bs (A, L) = Except.ok (A2, L2) ∧
        A2.length = A.length ∧ L2.length = L.length ∧
        (∀ a, a < A2.length → (A2.getD a []).length = w) ∧
        (∀ a, a < L2.length → (L2.getD a []).length = w) ∧
        (∀ a, a ≠ i → A2.getD a [] = A.getD a [] ∧ L2.getD a [] = L.getD a []) ∧
        (∀ b, adjCell A2 i b =
          (match lastWrite resolve bs b with
           | some _ => 1
           | none => adjCell A i b)) ∧
        (∀ b, lblCell L2 i b =
          (match lastWrite resolve bs b with
           | some s => some s
           | none => lblCell L i b)) := by
  intro bs
  induction bs with
  | nil =>
    intro A L hiA hiL hrA hrL _
    exact ⟨A, L, rfl, rfl, rfl, hrA, hrL, fun a _ => ⟨rfl, rfl⟩,
      fun b => by rw [lastWrite], fun b => by rw [lastWrite]⟩
  | cons b bs ih =>
    intro A L hiA hiL hrA hrL hres
    obtain ⟨j, hrj, hjw⟩ := hres b (by simp)
    have hresr : ∀ x ∈ bs, ∃ j, resolve x.1 = some j ∧ j < w :=
      fun x hx => hres x (by simp [hx])
    obtain ⟨A2, L2, hok, hlenA, hlenL, hrA2, hrL2, hrows, hcA, hcL⟩ :=
      ih (set2d A i j 1) (set2d L i j (some b.2))
        (by rw [length_set2d]; exact hiA) (by rw [length_set2d]; exact hiL)
        (fun a ha => by rw [rowlen_set2d]; exact hrA a (by rwa [length_set2d] at ha))
        (fun a ha => by rw [rowlen_set2d]; exact hrL a (by rwa [length_set2d] at ha))
        hresr
    refine ⟨A2, L2, ?_, by rw [hlenA, length_set2d], by rw [hlenL, length_set2d],
      hrA2, hrL2, ?_, ?_, ?_⟩
    · rw [apply_row, hrj]
      exact hok
    · intro a ha
      obtain ⟨h1, h2⟩ := hrows a ha
      exact ⟨by rw [h1, row_set2d_ne _ _ _ _ _ ha], by rw [h2, row_set2d_ne _ _ _ _ _ ha]⟩
    · intro bb
      rw [hcA bb, lastWrite]
      cases hlw : lastWrite resolve bs bb with
      | some s => rfl
      | none =>
        by_cases hbj : bb = j
        · subst hbj
          rw [hrj, if_pos rfl]
          rw [adjCell, cell_set2d,
            if_pos ⟨rfl, rfl, hiA, by rw [hrA i hiA]; exact hjw⟩]
        · rw [hrj, if_neg (fun hc => hbj (Option.some.inj hc).symm)]
          rw [adjCell, adjCell, cell_set2d, if_neg (fun hc => hbj hc.2.1)]
    · intro bb
      rw [hcL bb, lastWrite]
      cases hlw : lastWrite resolve bs bb with
      | some s => rfl
      | none =>
        by_cases hbj : bb = j
        · subst hbj
          rw [hrj, if_pos rfl]
          rw [lblCell, cell_set2d,
            if_pos ⟨rfl, rfl, hiL, by rw [hrL i hiL]; exact hjw⟩]
        · rw [hrj, if_neg (fun hc => hbj (Option.some.inj hc).symm)]
          rw [lblCell, lblCell, cell_set2d, if_neg (fun hc => hbj hc.2.1)]

lemma apply_bonds_from_ok (resolve : Int → Option Nat) (n : Nat) :
    ∀ (atoms : List AtomDef) (i0 : Nat) (A : List (List Int))
      (L : List (List (Option String))),
      A.length = n → L.length = n →
      (∀ a, a < n → (A.getD a []).length = n) →
      (∀ a, a < n → (L.getD a []).length = n) →
      i0 + atoms.length ≤ n →
      (∀ x ∈ atoms, ∀ b ∈ x.bonds, ∃ j, resolve b.1 = some j ∧ j < n) →
      ∃ A2 L2, apply_bonds_from resolve i0 atoms (A, L) = Except.ok (A2, L2) ∧
        A2.length = n ∧ L2.length = n ∧
        (∀ a, a < n → (A2.getD a []).length = n) ∧
        (∀ a, a < n → (L2.getD a []).length = n) ∧
        (∀ a, a < i0 → A2.getD a [] = A.getD a [] ∧ L2.getD a [] = L.getD a []) ∧
        (∀ t, t < atoms.length →
          (∀ b, adjCell A2 (i0 + t) b =
            (match lastWrite resolve (atoms.getD t defaultAtom).bonds b with
             | some _ => 1
             | none => adjCell A (i0 + t) b)) ∧
          (∀ b, lblCell L2 (i0 + t) b =
            (match lastWrite resolve (atoms.getD t defaultAtom).bonds b with
             | some s => some s
             | none => lblCell L (i0 + t) b))) := by
  intro atoms
  induction atoms with
  | nil =>
    intro i0 A L hA hL hrA hrL _ _
    exact ⟨A, L, rfl, hA, hL, hrA, hrL, fun a _ => ⟨rfl, rfl⟩,
      fun t ht => absurd ht (by simp)⟩
  | cons x atoms ih =>
    intro i0 A L hA hL hrA hrL hbound hres
    have hbound2 : i0 + (atoms.length + 1) ≤ n := by simpa using hbound
    have hi0 : i0 < n := by omega
    obtain ⟨A1, L1, hok1, hlenA1, hlenL1, hrA1, hrL1, hrows1, hcA1, hcL1⟩ :=
      apply_row_ok resolve i0 n x.bonds A L (by omega) (by omega)
        (by rw [hA]; exact hrA) (by rw [hL]; exact hrL)
        (hres x (by simp))
    obtain ⟨A2, L2, hok2, hlenA2, hlenL2, hrA2, hrL2, hrows2, hchar2⟩ :=
      ih (i0 + 1) A1 L1 (by rw [hlenA1, hA]) (by rw [hlenL1, hL])
        (fun a ha => hrA1 a (by rw [hlenA1, hA]; exact ha))
        (fun a ha => hrL1 a (by rw [hlenL1, hL]; exact ha))
        (by simp at hbound; omega)
        (fun y hy => hres y (by simp [hy]))
    refine ⟨A2, L2, ?_, hlenA2, hlenL2, hrA2, hrL2, ?_, ?_⟩
    · rw [apply_bonds_from, hok1]
      exact hok2
    · intro a ha
      obtain ⟨h1, h2⟩ := hrows2 a (by omega)
      obtain ⟨h3, h4⟩ := hrows1 a (by omega)
      exact ⟨by rw [h1, h3], by rw [h2, h4]⟩
    · intro t ht
      match t with
      | 0 =>
        obtain ⟨h1, h2⟩ := hrows2 i0 (by omega)
        constructor
        · intro b
          rw [Nat.add_zero, adjCell, h1]
          exact hcA1 b
        · intro b
          rw [Nat.add_zero, lblCell, h2]
          exact hcL1 b
      | t + 1 =>
        have ht2 : t < atoms.length := by simpa using ht
        obtain ⟨h1, h2⟩ := hchar2 t ht2
        constructor
        · intro b
          have heq : i0 + (t + 1) = (i0 + 1) + t := by omega
          rw [heq, h1 b, List.getD_cons_succ]
          cases lastWrite resolve (atoms.getD t defaultAtom).bonds b with
          | some s => rfl
          | none =>
            rw [adjCell, adjCell, (hrows1 ((i0 + 1) + t) (by omega)).1]
        · intro b
          have heq : i0 + (t + 1) = (i0 + 1) + t := by omega
          rw [heq, h2 b, List.getD_cons_succ]
          cases lastWrite resolve (atoms.getD t defaultAtom).bonds b with
          | some s => rfl
          | none =>
            rw [lblCell, lblCell, (hrows1 ((i0 + 1) + t) (by omega)).2]

lemma id_map_lookup_some (atoms : List AtomDef) (k : Int) (j : Nat)
    (h : id_map_lookup atoms k = some j) :
    j < atoms.length ∧ (atoms.getD j defaultAtom).number = k := by
  rw [id_map_lookup] at h
  cases hf : (atoms.enum.map (fun p => (p.2.number, p.1))).reverse.find? (fun p => p.1 = k) with
  | none => rw [hf] at h; cases h
  | some pr =>
    rw [hf] at h
    cases h
    have hp := List.find?_some hf
    have hmem : pr ∈ (atoms.enum.map (fun p => (p.2.number, p.1))).reverse :=
      List.mem_of_find?_eq_some hf
    rw [List.mem_reverse, List.mem_map] at hmem
    obtain ⟨q, hq, rfl⟩ := hmem
    have hq2 : atoms[q.1]? = some q.2 := by
      rw [← List.mk_mem_enum_iff_getElem?]
      exact hq
    have hlt : q.1 < atoms.length := by
      by_contra hge
      rw [List.getElem?_eq_none (by omega)] at hq2
      cases hq2
    have hget : atoms[q.1] = q.2 := by
      have := List.getElem?_eq_getElem hlt
      rw [this] at hq2
      exact Option.some.inj hq2
    refine ⟨hlt, ?_⟩
    rw [List.getD_eq_getElem atoms defaultAtom hlt, hget]
    simpa using hp

lemma id_map_lookup_exists (atoms : List AtomDef) (k : Int)
    (h : ∃ a ∈ atoms, a.number = k) : ∃ j, id_map_lookup atoms k = some j := by
  obtain ⟨a, ha, hk⟩ := h
  obtain ⟨i, hi, hget⟩ := List.mem_iff_getElem.mp ha
  have hmem : (a.number, i) ∈ (atoms.enum.map (fun p => (p.2.number, p.1))).reverse := by
    rw [List.mem_reverse, List.mem_map]
    refine ⟨(i, a), ?_, by rfl⟩
    rw [List.mk_mem_enum_iff_getElem?, List.getElem?_eq_getElem hi, hget]
  have hsome : ((atoms.enum.map (fun p => (p.2.number, p.1))).reverse.find?
      (fun p => p.1 = k)).isSome :=
    List.find?_isSome.mpr ⟨(a.number, i), hmem, by simpa using hk⟩
  obtain ⟨pr, hpr⟩ := Option.isSome_iff_exists.mp hsome
  exact ⟨pr.2, by rw [id_map_lookup, hpr]; rfl⟩

lemma id_map_lookup_inj (atoms : List AtomDef) :
    ∀ k1 k2 j, id_map_lookup atoms k1 = some j → id_map_lookup atoms k2 = some j →
      k1 = k2 := by
  intro k1 k2 j h1 h2
  obtain ⟨_, hn1⟩ := id_map_lookup_some atoms k1 j h1
  obtain ⟨_, hn2⟩ := id_map_lookup_some atoms k2 j h2
  rw [← hn1, ← hn2]

lemma nodup_number_index_inj (atoms : List AtomDef)
    (hnum : (atoms.map (fun a => a.number)).Nodup) (i j : Nat)
    (hi : i < atoms.length) (hj : j < atoms.length)
    (h : (atoms.getD i defaultAtom).number = (atoms.getD j defaultAtom).number) : i = j := by
  have hmi : i < (atoms.map (fun a => a.number)).length := by simpa using hi
  have hmj : j < (atoms.map (fun a => a.number)).length := by simpa using hj
  refine (@List.Nodup.getElem_inj_iff _ _ hnum i hmi j hmj).mp ?_
  rw [List.getElem_map, List.getElem_map]
  rw [List.getD_eq_getElem atoms defaultAtom hi, List.getD_eq_getElem atoms defaultAtom hj] at h
  exact h

lemma id_map_lookup_self (atoms : List AtomDef)
    (hnum : (atoms.map (fun a => a.number)).Nodup) (i : Nat) (hi : i < atoms.length) :
    id_map_lookup atoms (atoms.getD i defaultAtom).number = some i := by
  have hmem : atoms.getD i defaultAtom ∈ atoms := by
    rw [List.getD_eq_getElem atoms defaultAtom hi]
    exact List.getElem_mem hi
  obtain ⟨j, hj⟩ := id_map_lookup_exists atoms (atoms.getD i defaultAtom).number
    ⟨atoms.getD i defaultAtom, hmem, rfl⟩
  obtain ⟨hjlt, hjn⟩ := id_map_lookup_some atoms _ j hj
  have : j = i := nodup_number_index_inj atoms hnum j i hjlt hi hjn
  rwa [this] at hj

lemma adjCell_init (n i j : Nat) :
    adjCell (List.replicate n (List.replicate n (0 : Int))) i j = 0 := by
  rw [adjCell, getD_replicate]
  by_cases h : i < n
  · rw [if_pos h, getD_replicate]
    by_cases h2 : j < n
    · rw [if_pos h2]
    · rw [if_neg h2]
  · rw [if_neg h]; rfl

lemma lblCell_init (n i j : Nat) :
    lblCell (List.replicate n (List.replicate n (none : Option String))) i j = none := by
  rw [lblCell, getD_replicate]
  by_cases h : i < n
  · rw [if_pos h, getD_replicate]
    by_cases h2 : j < n
    · rw [if_pos h2]
    · rw [if_neg h2]
  · rw [if_neg h]; rfl

/-- C5 amended: a `MoleculeGraph` built from atoms with pairwise
distinct numbers, no self-bonds, at most one bond per neighbour, and
every bond declared reciprocally with an equal bond label on both
endpoints (the adjacency-list notation's own validity constraints) has
a symmetric zero-diagonal adjacency matrix, symmetric edge labels, and
a label defined exactly where the adjacency is `1`.  (The builder
writes only one direction per declared bond, so the unamended claim
fails on inputs that declare a bond from one endpoint only — see the
counterexample.) -/
theorem C5_builder_invariants (atoms : List AtomDef)
    (hnum : (atoms.map (fun a => a.number)).Nodup)
    (hself : ∀ a ∈ atoms, ∀ b ∈ a.bonds, b.1 ≠ a.number)
    (htarg : ∀ a ∈ atoms, (a.bonds.map (fun x => x.1)).Nodup)
    (hrecip : ∀ a ∈ atoms, ∀ b ∈ a.bonds,
      ∃ a2 ∈ atoms, a2.number = b.1 ∧ (a.number, b.2) ∈ a2.bonds) :
    ∃ g, graph_of_atoms atoms = Except.ok g ∧
      g.adjacencyMatrix.length = atoms.length ∧
      g.edgeLabels.length = atoms.length ∧
      (∀ i, i < atoms.length → adjCell g.adjacencyMatrix i i = 0) ∧
      (∀ i j, i < atoms.length → j < atoms.length →
        adjCell g.adjacencyMatrix i j = adjCell g.adjacencyMatrix j i ∧
        (lblCell g.edgeLabels i j ≠ none ↔ adjCell g.adjacencyMatrix i j = 1) ∧
        lblCell g.edgeLabels i j = lblCell g.edgeLabels j i) := by
  have hgetmem : ∀ i, i < atoms.length → atoms.getD i defaultAtom ∈ atoms := by
    intro i hi
    rw [List.getD_eq_getElem atoms defaultAtom hi]
    exact List.getElem_mem hi
  have hres : ∀ x ∈ atoms, ∀ b ∈ x.bonds,
      ∃ j, id_map_lookup atoms b.1 = some j ∧ j < atoms.length := by
    intro x hx b hb
    obtain ⟨a2, ha2, hn2, _⟩ := hrecip x hx b hb
    obtain ⟨j, hj⟩ := id_map_lookup_exists atoms b.1 ⟨a2, ha2, hn2⟩
    exact ⟨j, hj, (id_map_lookup_some atoms b.1 j hj).1⟩
  obtain ⟨A2, L2, hok, hlenA, hlenL, _, _, _, hchar⟩ :=
    apply_bonds_from_ok (id_map_lookup atoms) atoms.length atoms 0
      (List.replicate atoms.length (List.replicate atoms.length 0))
      (List.replicate atoms.length (List.replicate atoms.length none))
      (by rw [List.length_replicate]) (by rw [List.length_replicate])
      (fun a ha => by rw [getD_replicate, if_pos ha, List.length_replicate])
      (fun a ha => by rw [getD_replicate, if_pos ha, List.length_replicate])
      (by omega) hres
  have hAdj : ∀ t, t < atoms.length → ∀ b, adjCell A2 t b =
      (match lastWrite (id_map_lookup atoms) (atoms.getD t defaultAtom).bonds b with
       | some _ => 1
       | none => 0) := by
    intro t ht b
    have := (hchar t ht).1 b
    rw [Nat.zero_add] at this
    rw [this]
    cases lastWrite (id_map_lookup atoms) (atoms.getD t defaultAtom).bonds b with
    | some s => rfl
    | none => rw [adjCell_init]
  have hLbl : ∀ t, t < atoms.length → ∀ b, lblCell L2 t b =
      (match lastWrite (id_map_lookup atoms) (atoms.getD t defaultAtom).bonds b with
       | some s => some s
       | none => none) := by
    intro t ht b
    have := (hchar t ht).2 b
    rw [Nat.zero_add] at this
    rw [this]
    cases lastWrite (id_map_lookup atoms) (atoms.getD t defaultAtom).bonds b with
    | some s => rfl
    | none => rw [lblCell_init]
  have hmirror : ∀ i j s, i < atoms.length → j < atoms.length →
      lastWrite (id_map_lookup atoms) (atoms.getD i defaultAtom).bonds j = some s →
      lastWrite (id_map_lookup atoms) (atoms.getD j defaultAtom).bonds i = some s := by
    intro i j s hi hj hlw
    obtain ⟨b, hb, hrb, hbs⟩ := lastWrite_some _ _ _ _ hlw
    have hjn : (atoms.getD j defaultAtom).number = b.1 :=
      (id_map_lookup_some atoms b.1 j hrb).2
    obtain ⟨a2, ha2, hn2, hrev⟩ := hrecip (atoms.getD i defaultAtom) (hgetmem i hi) b hb
    obtain ⟨j2, hj2, hget2⟩ := List.mem_iff_getElem.mp ha2
    have ha2d : atoms.getD j2 defaultAtom = a2 := by
      rw [List.getD_eq_getElem atoms defaultAtom hj2, hget2]
    have hj2j : j2 = j := by
      apply nodup_number_index_inj atoms hnum j2 j hj2 hj
      rw [ha2d, hn2, hjn]
    have ha2j : atoms.getD j defaultAtom = a2 := by rw [← hj2j, ha2d]
    have hresolve : id_map_lookup atoms (atoms.getD i defaultAtom).number = some i :=
      id_map_lookup_self atoms hnum i hi
    have hlw2 := lastWrite_unique (id_map_lookup atoms) (id_map_lookup_inj atoms)
      (atoms.getD j defaultAtom).bonds i ((atoms.getD i defaultAtom).number, b.2)
      (htarg (atoms.getD j defaultAtom) (hgetmem j hj))
      (by rw [ha2j]; exact hbs ▸ hrev) hresolve
    rw [hlw2, hbs]
  refine ⟨{ adjacencyMatrix := A2, edgeLabels := L2,
            nodeLabels := atoms.map (fun a => a.element),
            nodeIds := atoms.map (fun a => a.label) }, ?_, hlenA, hlenL, ?_, ?_⟩
  · rw [graph_of_atoms, hok]
  · intro i hi
    rw [hAdj i hi i]
    cases hlw : lastWrite (id_map_lookup atoms) (atoms.getD i defaultAtom).bonds i with
    | none => rfl
    | some s =>
      obtain ⟨b, hb, hrb, _⟩ := lastWrite_some _ _ _ _ hlw
      have hin : (atoms.getD i defaultAtom).number = b.1 :=
        (id_map_lookup_some atoms b.1 i hrb).2
      exact absurd hin.symm (hself (atoms.getD i defaultAtom) (hgetmem i hi) b hb)
  · intro i j hi hj
    rw [hAdj i hi j, hAdj j hj i, hLbl i hi j, hLbl j hj i]
    cases hlw : lastWrite (id_map_lookup atoms) (atoms.getD i defaultAtom).bonds j with
    | some s =>
      rw [hmirror i j s hi hj hlw]
      exact ⟨rfl, by simp, rfl⟩
    | none =>
      cases hlw2 : lastWrite (id_map_lookup atoms) (atoms.getD j defaultAtom).bonds i with
      | some s => rw [hmirror j i s hj hi hlw2] at hlw; cases hlw
      | none => exact ⟨rfl, by simp, rfl⟩

/-- C5 counterexample: a bond declared from one endpoint only produces
an asymmetric adjacency matrix and asymmetric edge labels — the claim
that **every** built graph is symmetric fails. -/
theorem C5_counterexample :
    adjlist_to_graph ["1 C u0 \x7b2,S\x7d", "2 C u0"] =
      Except.ok { adjacencyMatrix := [[0, 1], [0, 0]],
                  edgeLabels := [[none, some "S"], [none, none]],
                  nodeLabels := ["C", "C"], nodeIds := [none, none] } ∧
    adjCell [[0, 1], [0, 0]] 0 1 = 1 ∧ adjCell [[0, 1], [0, 0]] 1 0 = 0 ∧
    lblCell [[none, some "S"], [none, none]] 0 1 ≠
      lblCell [[none, some "S"], [none, none]] 1 0 := by
  refine ⟨by decide, by decide, by decide, by decide⟩

/-- Witness for C5's amended statement: the well-formed two-carbon
molecule (bond declared from both endpoints). -/
theorem C5_builder_invariants_witness :
    ∃ g, graph_of_atoms
        [{ number := 1, label := none, element := "C", unpaired := 0, pairs := none,
           charge := none, bonds := [(2, "S")] },
         { number := 2, label := none, element := "C", unpaired := 0, pairs := none,
           charge := none, bonds := [(1, "S")] }] = Except.ok g ∧
      g.adjacencyMatrix.length = 2 ∧ g.edgeLabels.length = 2 ∧
      (∀ i, i < 2 → adjCell g.adjacencyMatrix i i = 0) ∧
      (∀ i j, i < 2 → j < 2 →
        adjCell g.adjacencyMatrix i j = adjCell g.adjacencyMatrix j i ∧
        (lblCell g.edgeLabels i j ≠ none ↔ adjCell g.adjacencyMatrix i j = 1) ∧
        lblCell g.edgeLabels i j = lblCell g.edgeLabels j i) :=
  C5_builder_invariants
    [{ number := 1, label := none, element := "C", unpaired := 0, pairs := none,
       charge := none, bonds := [(2, "S")] },
     { number := 2, label := none, element := "C", unpaired := 0, pairs := none,
       charge := none, bonds := [(1, "S")] }]
    (by decide) (by decide) (by decide) (by decide)

/-! ### C3: the matcher returns exactly the label-preserving bijections -/

lemma find?_congr_local : ∀ (l : List α) (p q : α → Bool), (∀ x, p x = q x) →
    l.find? p = l.find? q := by
  intro l p q h
  induction l with
  | nil => rfl
  | cons a l ih =>
    rw [List.find?_cons, List.find?_cons, h a]
    cases q a with
    | true => rfl
    | false => exact ih

lemma any_congr_local : ∀ (l : List α) (p q : α → Bool), (∀ x, p x = q x) →
    l.any p = l.any q := by
  intro l p q h
  induction l with
  | nil => rfl
  | cons a l ih => rw [List.any_cons, List.any_cons, h a, ih]

lemma nx_has_edge_symm (g : NxGraph) (u v : Nat) :
    nx_has_edge g u v = nx_has_edge g v u := by
  rw [nx_has_edge, nx_has_edge]
  exact any_congr_local _ _ _ (fun e => Bool.or_comm _ _)

lemma nx_edge_label_symm (g : NxGraph) (u v : Nat) :
    nx_edge_label g u v = nx_edge_label g v u := by
  rw [nx_edge_label, nx_edge_label]
  rw [find?_congr_local g.edges _ _ (fun e => Bool.or_comm _ _)]

lemma nx_has_edge_iff (g : NxGraph) (u v : Nat) :
    nx_has_edge g u v = true ↔
      ∃ e ∈ g.edges, (e.1 = u ∧ e.2.1 = v) ∨ (e.1 = v ∧ e.2.1 = u) := by
  rw [nx_has_edge, List.any_eq_true]
  constructor
  · rintro ⟨e, he, hp⟩
    refine ⟨e, he, ?_⟩
    simpa using hp
  · rintro ⟨e, he, hp⟩
    refine ⟨e, he, ?_⟩
    simpa using hp

lemma nx_has_edge_of_mem (g : NxGraph) (e : Nat × Nat × Option String) (he : e ∈ g.edges) :
    nx_has_edge g e.1 e.2.1 = true :=
  (nx_has_edge_iff g e.1 e.2.1).mpr ⟨e, he, Or.inl ⟨rfl, rfl⟩⟩

lemma nx_edge_label_of_mem (g : NxGraph) (hw : NxWF g) (e : Nat × Nat × Option String)
    (he : e ∈ g.edges) :
    nx_edge_label g e.1 e.2.1 = e.2.2 ∧ nx_edge_label g e.2.1 e.1 = e.2.2 := by
  have hsym : nx_edge_label g e.2.1 e.1 = nx_edge_label g e.1 e.2.1 :=
    (nx_edge_label_symm g e.1 e.2.1).symm
  have hmain : nx_edge_label g e.1 e.2.1 = e.2.2 := by
    rw [nx_edge_label]
    cases hf : g.edges.find? (fun f =>
        (f.1 = e.1 && f.2.1 = e.2.1) || (f.1 = e.2.1 && f.2.1 = e.1)) with
    | none =>
      exfalso
      have : (g.edges.find? (fun f =>
          (f.1 = e.1 && f.2.1 = e.2.1) || (f.1 = e.2.1 && f.2.1 = e.1))).isSome :=
        List.find?_isSome.mpr ⟨e, he, by simp⟩
      rw [hf] at this
      cases this
    | some f =>
      have hfm : f ∈ g.edges := List.mem_of_find?_eq_some hf
      have hfp := List.find?_some hf
      have hfe : f = e := by
        by_contra hne
        have hpw := hw.2
        have hsymm : Symmetric (fun e f : Nat × Nat × Option String =>
            ¬((e.1 = f.1 ∧ e.2.1 = f.2.1) ∨ (e.1 = f.2.1 ∧ e.2.1 = f.1))) := by
          intro a b hab hm
          apply hab
          rcases hm with ⟨h1, h2⟩ | ⟨h1, h2⟩
          · exact Or.inl ⟨h1.symm, h2.symm⟩
          · exact Or.inr ⟨h2.symm, h1.symm⟩
        have hdiff := List.Pairwise.forall hsymm hpw
        have := hdiff hfm he hne
        apply this
        simpa using hfp
      rw [hfe]
  exact ⟨hmain, by rw [hsym, hmain]⟩

lemma mem_all_bijections (n m : Nat) (p : List Nat) :
    p ∈ all_bijections n m ↔
      n = m ∧ p.length = n ∧ p.Nodup ∧ (∀ x ∈ p, x < m) ∧ ∀ y, y < m → y ∈ p := by
  rw [all_bijections]
  by_cases hnm : n = m
  · rw [if_pos hnm]
    rw [List.mem_permutations']
    constructor
    · intro hperm
      refine ⟨hnm, by rw [hperm.length_eq, List.length_range, hnm], ?_, ?_, ?_⟩
      · exact hperm.nodup_iff.mpr (List.nodup_range m)
      · intro x hx
        have := hperm.mem_iff.mp hx
        simpa using this
      · intro y hy
        exact hperm.mem_iff.mpr (by simpa using hy)
    · rintro ⟨_, hlen, hnd, hbound, honto⟩
      rw [List.perm_ext_iff_of_nodup hnd (List.nodup_range m)]
      intro a
      constructor
      · intro ha
        simpa using hbound a ha
      · intro ha
        exact honto a (by simpa using ha)
  · rw [if_neg hnm]
    simp only [List.not_mem_nil, false_iff]
    rintro ⟨h, _⟩
    exact hnm h

lemma is_structural_iso_iff (g1 g2 : NxGraph) (p : List Nat) :
    is_structural_iso g1 g2 p = true ↔
      ∀ i j, i < nxN g1 → j < nxN g1 →
        nx_has_edge g1 i j = nx_has_edge g2 (p.getD i 0) (p.getD j 0) := by
  rw [is_structural_iso]
  simp only [List.all_eq_true, List.mem_range, decide_eq_true_eq]
  constructor
  · intro h i j hi hj
    exact h i hi j hj
  · intro h i hi j hj
    exact h i j hi hj

lemma mem_glfi_iff (g1 g2 : NxGraph) (p : List Nat) :
    p ∈ get_label_filtered_isomorphisms g1 g2 ↔
      p ∈ all_bijections (nxN g1) (nxN g2) ∧ is_structural_iso g1 g2 p = true ∧
      (∀ i, i < nxN g1 → nx_node_label g1 i = nx_node_label g2 (p.getD i 0)) ∧
      (∀ e ∈ g1.edges, nx_has_edge g2 (p.getD e.1 0) (p.getD e.2.1 0) = true ∧
        nx_edge_label g1 e.1 e.2.1 = nx_edge_label g2 (p.getD e.1 0) (p.getD e.2.1 0)) := by
  rw [get_label_filtered_isomorphisms, isomorphisms_iter]
  rw [List.mem_filter, List.mem_filter]
  constructor
  · rintro ⟨⟨hbij, hstruct⟩, hlab⟩
    rw [Bool.and_eq_true] at hlab
    obtain ⟨hnode, hedge⟩ := hlab
    refine ⟨hbij, hstruct, ?_, ?_⟩
    · intro i hi
      rw [List.all_eq_true] at hnode
      have := hnode i (by simpa using hi)
      simpa using this
    · intro e he
      rw [List.all_eq_true] at hedge
      have := hedge e he
      rw [Bool.and_eq_true] at this
      exact ⟨this.1, by simpa using this.2⟩
  · rintro ⟨hbij, hstruct, hnode, hedge⟩
    refine ⟨⟨hbij, hstruct⟩, ?_⟩
    rw [Bool.and_eq_true]
    constructor
    · rw [List.all_eq_true]
      intro i hi
      rw [List.mem_range] at hi
      simpa using hnode i hi
    · rw [List.all_eq_true]
      intro e he
      rw [Bool.and_eq_true]
      exact ⟨(hedge e he).1, by simpa using (hedge e he).2⟩

lemma getD_inj_of_nodup (p : List Nat) (hnd : p.Nodup) (u v : Nat)
    (hu : u < p.length) (hv : v < p.length) (h : p.getD u 0 = p.getD v 0) : u = v := by
  refine (@List.Nodup.getElem_inj_iff _ _ hnd u hu v hv).mp ?_
  rw [List.getD_eq_getElem p 0 hu, List.getD_eq_getElem p 0 hv] at h
  exact h

lemma mem_index_getD (p : List Nat) (y : Nat) (hy : y ∈ p) :
    ∃ u, u < p.length ∧ p.getD u 0 = y := by
  obtain ⟨u, hu, hget⟩ := List.mem_iff_getElem.mp hy
  exact ⟨u, hu, by rw [List.getD_eq_getElem p 0 hu, hget]⟩

/-- C3: for well-formed nx graphs (as `get_nx_graph` produces), the
matcher returns exactly the bijections between the two node sets that
preserve node labels and map edges to equally-labeled edges in both
directions; and when the node counts differ it returns `[]`. -/
theorem C3_matcher_exact (g1 g2 : NxGraph) (p : List Nat)
    (_hw1 : NxWF g1) (hw2 : NxWF g2) :
    (p ∈ get_label_filtered_isomorphisms g1 g2 ↔ spec_is_label_iso g1 g2 p) ∧
    (nxN g1 ≠ nxN g2 → get_label_filtered_isomorphisms g1 g2 = []) := by
  constructor
  · constructor
    · intro hmem
      obtain ⟨hbij, hstruct, hnode, hedge⟩ := (mem_glfi_iff g1 g2 p).mp hmem
      obtain ⟨hnm, hlen, hnd, hbound, honto⟩ := (mem_all_bijections _ _ p).mp hbij
      have hstruct2 := (is_structural_iso_iff g1 g2 p).mp hstruct
      refine ⟨hlen, hnd, fun x hx => hbound x hx, fun y hy => honto y hy, hnode,
        fun e he => ⟨(hedge e he).1, ((hedge e he).2).symm⟩, ?_⟩
      intro e he
      obtain ⟨heu, hev, hne⟩ := hw2.1 e he
      obtain ⟨u, hu, hpu⟩ := mem_index_getD p e.1 (honto e.1 heu)
      obtain ⟨v, hv, hpv⟩ := mem_index_getD p e.2.1 (honto e.2.1 hev)
      have hu2 : u < nxN g1 := by rw [← hlen]; exact hu
      have hv2 : v < nxN g1 := by rw [← hlen]; exact hv
      have hedge_uv : nx_has_edge g1 u v = true := by
        rw [hstruct2 u v hu2 hv2, hpu, hpv]
        exact nx_has_edge_of_mem g2 e he
      obtain ⟨f, hf, hpm⟩ := (nx_has_edge_iff g1 u v).mp hedge_uv
      have hef := hedge f hf
      have hlab : nx_edge_label g1 u v = nx_edge_label g2 e.1 e.2.1 := by
        cases hpm with
        | inl h =>
          rw [← h.1, ← h.2, hef.2, h.1, h.2, hpu, hpv]
        | inr h =>
          rw [nx_edge_label_symm g1 u v, ← h.1, ← h.2, hef.2, h.1, h.2, hpu, hpv]
          rw [nx_edge_label_symm g2 e.2.1 e.1]
      exact ⟨u, v, hu2, hv2, hpu, hpv, hedge_uv, hlab⟩
    · rintro ⟨hlen, hnd, hbound, honto, hnode, hg1, hg2⟩
      have hnm : nxN g1 = nxN g2 := by
        have hperm : p.Perm (List.range (nxN g2)) := by
          rw [List.perm_ext_iff_of_nodup hnd (List.nodup_range _)]
          intro a
          constructor
          · intro ha
            rw [List.mem_range]
            exact hbound a ha
          · intro ha
            exact honto a (by simpa using ha)
        have hplen := hperm.length_eq
        rw [List.length_range] at hplen
        rw [← hlen, hplen]
      apply (mem_glfi_iff g1 g2 p).mpr
      refine ⟨(mem_all_bijections _ _ p).mpr ⟨hnm, hlen, hnd, hbound, honto⟩, ?_, hnode,
        fun e he => ⟨(hg1 e he).1, ((hg1 e he).2).symm⟩⟩
      rw [is_structural_iso_iff]
      intro i j hi hj
      cases h1 : nx_has_edge g1 i j with
      | true =>
        obtain ⟨f, hf, hpm⟩ := (nx_has_edge_iff g1 i j).mp h1
        have hfg2 := (hg1 f hf).1
        cases hpm with
        | inl h =>
          rw [h.1, h.2] at hfg2
          rw [hfg2]
        | inr h =>
          rw [h.1, h.2] at hfg2
          rw [nx_has_edge_symm g2 (p.getD i 0) (p.getD j 0), hfg2]
      | false =>
        cases h2 : nx_has_edge g2 (p.getD i 0) (p.getD j 0) with
        | false => rfl
        | true =>
          exfalso
          obtain ⟨e, he, hpm⟩ := (nx_has_edge_iff g2 _ _).mp h2
          obtain ⟨u, v, hu, hv, hpu, hpv, hedge_uv, _⟩ := hg2 e he
          have hu2 : u < p.length := by rw [hlen]; exact hu
          have hv2 : v < p.length := by rw [hlen]; exact hv
          have hi2 : i < p.length := by rw [hlen]; exact hi
          have hj2 : j < p.length := by rw [hlen]; exact hj
          cases hpm with
          | inl h =>
            have hui : u = i := getD_inj_of_nodup p hnd u i hu2 hi2 (by rw [hpu, h.1])
            have hvj : v = j := getD_inj_of_nodup p hnd v j hv2 hj2 (by rw [hpv, h.2])
            rw [hui, hvj] at hedge_uv
            rw [hedge_uv] at h1
            cases h1
          | inr h =>
            have huj : u = j := getD_inj_of_nodup p hnd u j hu2 hj2 (by rw [hpu, h.1])
            have hvi : v = i := getD_inj_of_nodup p hnd v i hv2 hi2 (by rw [hpv, h.2])
            rw [huj, hvi] at hedge_uv
            rw [nx_has_edge_symm g1 j i] at hedge_uv
            rw [hedge_uv] at h1
            cases h1
  · intro hne
    rw [get_label_filtered_isomorphisms, isomorphisms_iter, all_bijections, if_neg hne]
    rfl

/-- Witness for C3 on the two-carbon graph: the identity bijection is
characterized by the specification predicate, and the equal-count
clause holds. -/
theorem C3_matcher_exact_witness :
    (([0, 1] : List Nat) ∈ get_label_filtered_isomorphisms nxgC2 nxgC2 ↔
      spec_is_label_iso nxgC2 nxgC2 [0, 1]) ∧
    (nxN nxgC2 ≠ nxN nxgC2 → get_label_filtered_isomorphisms nxgC2 nxgC2 = []) :=
  C3_matcher_exact nxgC2 nxgC2 [0, 1] (by decide) (by decide)
